import Mathlib

/-!
# geany-clang-complete: `completion.cpp`

A shallow embedding of `src/completion.cpp` (the libclang-backed completion
engine of the plugin) together with theorems about it.

* libclang itself is external.  Its data (cursor kinds, chunk kinds,
  completion strings, availability) is modelled by plain inductive types, its
  stateful entry points (`clang_createIndex`, `clang_parseTranslationUnit`,
  `clang_codeCompleteAt`, `clang_sortCodeCompletionResults`) by the fields of
  a structure `Clang` whose answers may depend on the whole history of calls
  made so far, and every call that the code makes is recorded in a trace.
* Pointers (`CXIndex`, `CXTranslationUnit`) are natural numbers, `0` is `NULL`.
* Console output (`std::cout`, `std::cerr`, `printf`) and the read-only
  inspection of diagnostics and annotations that feeds it are not modelled:
  they change neither the cache nor the rows.
* `enter_optional_count` is a C++ `int`.  In `do_parse` it is an unbounded
  integer; `do_parse_recorded` is the same walk with the counter wrapped to 32
  bits at each increment and decrement, and with a record of what the optional
  branch does.  The two leave the same parser object whenever the starting
  value plus the depth to which optional chunks are nested is at most
  2147483647 (`recorded_in_range`), so for `parse`, which starts at 0, on every
  completion string nested at most that deep.
-/

namespace cc

/-! ## Data of libclang -/

/-- Cursor kinds (`CXCursorKind`): the enumerators that `getCursorType` names,
and `unlisted code` for every other enumerator of the libclang enumeration. -/
inductive CXCursorKind where
  | CXCursor_StructDecl
  | CXCursor_UnionDecl
  | CXCursor_ClassDecl
  | CXCursor_TypedefDecl
  | CXCursor_ClassTemplate
  | CXCursor_Constructor
  | CXCursor_CXXMethod
  | CXCursor_Destructor
  | CXCursor_FunctionDecl
  | CXCursor_FunctionTemplate
  | CXCursor_VarDecl
  | CXCursor_EnumConstantDecl
  | CXCursor_FieldDecl
  | CXCursor_Namespace
  | CXCursor_MacroDefinition
  | CXCursor_EnumDecl
  | CXCursor_NotImplemented
  | CXCursor_ParmDecl
  | unlisted (code : Nat)
  deriving DecidableEq, Repr

/-- Chunk kinds (`CXCompletionChunkKind`), all twenty-one enumerators. -/
inductive CXCompletionChunkKind where
  | CXCompletionChunk_Optional
  | CXCompletionChunk_TypedText
  | CXCompletionChunk_Text
  | CXCompletionChunk_Placeholder
  | CXCompletionChunk_Informative
  | CXCompletionChunk_CurrentParameter
  | CXCompletionChunk_LeftParen
  | CXCompletionChunk_RightParen
  | CXCompletionChunk_LeftBracket
  | CXCompletionChunk_RightBracket
  | CXCompletionChunk_LeftBrace
  | CXCompletionChunk_RightBrace
  | CXCompletionChunk_LeftAngle
  | CXCompletionChunk_RightAngle
  | CXCompletionChunk_Comma
  | CXCompletionChunk_ResultType
  | CXCompletionChunk_Colon
  | CXCompletionChunk_SemiColon
  | CXCompletionChunk_Equal
  | CXCompletionChunk_HorizontalSpace
  | CXCompletionChunk_VerticalSpace
  deriving DecidableEq, Repr

/-- Availability of a candidate (`CXAvailabilityKind`). -/
inductive CXAvailabilityKind where
  | CXAvailability_Available
  | CXAvailability_Deprecated
  | CXAvailability_NotAvailable
  | CXAvailability_NotAccessible
  deriving DecidableEq, Repr

/-- The chunks of a completion string, in order.  `chunk kind text nested rest`
is a first chunk of kind `kind`, whose text (`clang_getCompletionChunkText`,
`none` when `clang_getCString` gives `NULL`) is `text` and whose nested
completion string (`clang_getCompletionChunkCompletionString`, only looked at
for an optional chunk) is `nested`, followed by the chunks `rest`.
`done` has no chunk; it also stands for the `NULL` completion string, for
which `clang_getNumCompletionChunks` is `0`. -/
inductive Chunks where
  | done
  | chunk (kind : CXCompletionChunkKind) (text : Option String)
      (nested : Chunks) (rest : Chunks)
  deriving DecidableEq, Repr

/-- A completion string (`CXCompletionString`): its availability and chunks. -/
structure CXCompletionString where
  Availability : CXAvailabilityKind
  chunks : Chunks
  deriving DecidableEq, Repr

/-- One raw candidate (`CXCompletionResult`). -/
structure CXCompletionResult where
  CursorKind : CXCursorKind
  CompletionString : CXCompletionString
  deriving DecidableEq, Repr

/-! ## Types of `completion.hpp` -/

/-- Modelled from the spec: the enumeration `CompleteResultType` is declared in
`completion.hpp`, which is not among the sources; the spec lists its values as
Class, Method, Function, Variable, Member, Namespace, Other, None, and
`completion.cpp` names them as below. -/
inductive CompleteResultType where
  | COMPLETE_RESULT_CLASS
  | COMPLETE_RESULT_METHOD
  | COMPLETE_RESULT_FUNCTION
  | COMPLETE_RESULT_VAR
  | COMPLETE_RESULT_MEMBER
  | COMPLETE_RESULT_NAMESPACE
  | COMPLETE_RESULT_OTHER
  | COMPLETE_RESULT_NONE
  deriving DecidableEq, Repr

open CXCursorKind CXCompletionChunkKind CXAvailabilityKind CompleteResultType

/-- Modelled from the spec: the row type `CompleteResultRow` is declared in
`completion.hpp`, which is not among the sources; its three members are the
ones `complete` assigns (kind, typed text, label). -/
structure CompleteResultRow where
  type : CompleteResultType
  typedText : String
  label : String
  deriving DecidableEq, Repr

/-- The sequence of rows handed to the caller (`CodeCompletionResults`). -/
abbrev CodeCompletionResults := List CompleteResultRow

/-! ## `getCursorType` -/

/-- The function `getCursorType`: the result kind of a raw candidate. -/
def getCursorType (result : CXCompletionResult) : CompleteResultType :=
  match result.CursorKind with
  | CXCursor_StructDecl | CXCursor_UnionDecl | CXCursor_ClassDecl
  | CXCursor_TypedefDecl | CXCursor_ClassTemplate | CXCursor_Constructor =>
      COMPLETE_RESULT_CLASS
  | CXCursor_CXXMethod | CXCursor_Destructor => COMPLETE_RESULT_METHOD
  | CXCursor_FunctionDecl | CXCursor_FunctionTemplate => COMPLETE_RESULT_FUNCTION
  | CXCursor_VarDecl | CXCursor_EnumConstantDecl => COMPLETE_RESULT_VAR
  | CXCursor_FieldDecl => COMPLETE_RESULT_MEMBER
  | CXCursor_Namespace => COMPLETE_RESULT_NAMESPACE
  | CXCursor_MacroDefinition => COMPLETE_RESULT_NONE
  | CXCursor_EnumDecl => COMPLETE_RESULT_OTHER
  | CXCursor_NotImplemented | CXCursor_ParmDecl => COMPLETE_RESULT_NONE
  | unlisted _ => COMPLETE_RESULT_NONE

/-! ## `CompletionStringParser` -/

/-- The enumeration `CompleteResultAvailability`. -/
inductive CompleteResultAvailability where
  | COMPLETE_RESULT_AVAIL_AVAIL
  | COMPLETE_RESULT_AVAIL_DEPRECATED
  | COMPLETE_RESULT_AVAIL_NOTAVAIL
  | COMPLETE_RESULT_AVAIL_NOTACCESS
  deriving DecidableEq, Repr

open CompleteResultAvailability

/-- The accumulator `ParseResult`. -/
structure ParseResult where
  return_type : String
  typed_text : String
  signature : String
  availability : CompleteResultAvailability
  type : CompleteResultType
  deriving DecidableEq, Repr

/-- A default-constructed `ParseResult` (`ParseResult pr;`): the three strings
are empty.  The two enumeration members are indeterminate in C++; `parse`
assigns both before it reads them, so the values chosen here are never seen. -/
def ParseResult.fresh : ParseResult :=
  { return_type := "", typed_text := "", signature := "",
    availability := COMPLETE_RESULT_AVAIL_AVAIL, type := COMPLETE_RESULT_NONE }

/-- The parser object: the result `r` it writes to (held by pointer in the
source) and its counter `enter_optional_count`. -/
structure CompletionStringParser where
  r : ParseResult
  enter_optional_count : Int
  deriving DecidableEq, Repr

namespace CompletionStringParser

/-- The method `append`: `stdstr += cstr ? cstr : ""`. -/
def append (stdstr : String) (text : Option String) : String :=
  stdstr ++ (match text with
    | some cstr => cstr
    | none => "")

/-- The method `setAveailability`. -/
def setAveailability (p : CompletionStringParser) (comp_str : CXCompletionString) :
    CompletionStringParser :=
  match comp_str.Availability with
  | CXAvailability_Available =>
      { p with r := { p.r with availability := COMPLETE_RESULT_AVAIL_AVAIL } }
  | CXAvailability_Deprecated =>
      { p with r := { p.r with availability := COMPLETE_RESULT_AVAIL_DEPRECATED } }
  | CXAvailability_NotAvailable =>
      { p with r := { p.r with availability := COMPLETE_RESULT_AVAIL_NOTAVAIL } }
  | CXAvailability_NotAccessible =>
      { p with r := { p.r with availability := COMPLETE_RESULT_AVAIL_NOTACCESS } }

/-- Appends `s` to the signature (`r->signature += s`). -/
def addSig (p : CompletionStringParser) (s : String) : CompletionStringParser :=
  { p with r := { p.r with signature := p.r.signature ++ s } }

/-- The method `do_parse`: the loop over the chunks of a completion string,
with the recursive call on the nested string of an optional chunk. -/
def do_parse (p : CompletionStringParser) : Chunks → CompletionStringParser
  | .done => p
  | .chunk kind text nested rest =>
    let p1 : CompletionStringParser :=
      match kind with
      | CXCompletionChunk_Optional =>
          let a := if p.enter_optional_count = 0 then p.addSig "\x7b" else p
          let b := { a with enter_optional_count := a.enter_optional_count + 1 }
          let c := do_parse b nested
          let d := { c with enter_optional_count := c.enter_optional_count - 1 }
          if d.enter_optional_count = 0 then d.addSig "\x7d" else d
      | CXCompletionChunk_TypedText =>
          let a := { p with r := { p.r with typed_text := append p.r.typed_text text } }
          a.addSig a.r.typed_text
      | CXCompletionChunk_ResultType =>
          { p with r := { p.r with return_type := append p.r.return_type text } }
      | CXCompletionChunk_Placeholder =>
          let a := { p with r := { p.r with signature := append p.r.signature text } }
          a.addSig "\x7bPH\x7d"
      | CXCompletionChunk_Text =>
          { p with r := { p.r with signature := append p.r.signature text } }
      | CXCompletionChunk_Informative =>
          { p with r := { p.r with signature := append p.r.signature text } }
      | CXCompletionChunk_CurrentParameter =>
          { p with r := { p.r with signature := append p.r.signature text } }
      | CXCompletionChunk_LeftParen => p.addSig "("
      | CXCompletionChunk_RightParen => p.addSig ")"
      | CXCompletionChunk_LeftBracket => p.addSig "["
      | CXCompletionChunk_RightBracket => p.addSig "]"
      | CXCompletionChunk_LeftBrace => p.addSig "\x7b"
      | CXCompletionChunk_RightBrace => p.addSig "\x7d"
      | CXCompletionChunk_LeftAngle => p.addSig "<"
      | CXCompletionChunk_RightAngle => p.addSig ">"
      | CXCompletionChunk_Comma => p.addSig ", "
      | CXCompletionChunk_Colon => p.addSig ":"
      | CXCompletionChunk_SemiColon => p.addSig ";"
      | CXCompletionChunk_Equal => p.addSig "="
      | CXCompletionChunk_HorizontalSpace => p.addSig " "
      | CXCompletionChunk_VerticalSpace => p.addSig "\n"
    do_parse p1 rest

/-- The method `parse`, on a parser object `p` and the result `r` it is given
by pointer; the value is the parser object afterwards, `r` inside it. -/
def parse (p : CompletionStringParser) (r : ParseResult) (result : CXCompletionResult) :
    CompletionStringParser :=
  let p := { p with r := r }
  let comp_str := result.CompletionString
  let p := p.setAveailability comp_str
  let p := { p with r := { p.r with type := getCursorType result } }
  let p := { p with enter_optional_count := 0 }
  let p := p.do_parse comp_str.chunks
  let p :=
    if p.r.return_type ≠ "" then
      (p.addSig " -> ").addSig p.r.return_type
    else p
  if p.r.availability = COMPLETE_RESULT_AVAIL_NOTACCESS then
    { p with r := { p.r with signature := "(NOTACCESS) " ++ p.r.signature } }
  else p

/-- A value-initialised temporary `CompletionStringParser()`. -/
def temporary : CompletionStringParser :=
  { r := ParseResult.fresh, enter_optional_count := 0 }

end CompletionStringParser

/-- What `complete` does with one kept candidate: `ParseResult pr;
CompletionStringParser().parse(&pr, result);` and the value of `pr` after. -/
def parseCandidate (result : CXCompletionResult) : ParseResult :=
  (CompletionStringParser.temporary.parse ParseResult.fresh result).r

/-! ## libclang as seen from `CodeCompletionImpl` -/

/-- The pointer type `CXIndex`; `0` is `NULL`. -/
abbrev CXIndex := Nat

/-- The pointer type `CXTranslationUnit`; `0` is `NULL`. -/
abbrev CXTranslationUnit := Nat

/-- The result container `CXCodeCompleteResults`: the array `Results`;
`NumResults` is its length. -/
structure CXCodeCompleteResults where
  Results : List CXCompletionResult
  deriving DecidableEq, Repr

/-- The number of raw candidates of a result container (`NumResults`). -/
def CXCodeCompleteResults.NumResults (results : CXCodeCompleteResults) : Nat :=
  results.Results.length

/-- One call of `CodeCompletionImpl` into libclang, with its arguments and,
where the code looks at it, its answer. -/
inductive ClangCall where
  | createIndex (index : CXIndex)
  | disposeIndex (index : CXIndex)
  | parseTranslationUnit (index : CXIndex) (filename : String) (argv : List String)
      (content : String) (tu : CXTranslationUnit)
  | disposeTranslationUnit (tu : CXTranslationUnit)
  | reparseTranslationUnit (tu : CXTranslationUnit) (filename content : String)
  | codeCompleteAt (tu : CXTranslationUnit) (filename : String) (line col : Int)
      (content : String) (results : Option CXCodeCompleteResults)
  | sortCodeCompletionResults (Results : List CXCompletionResult)
  | disposeCodeCompleteResults (results : CXCodeCompleteResults)
  deriving DecidableEq, Repr

/-- The answers of libclang.  The first argument of `parseTranslationUnit` and
of `codeCompleteAt` is the history of the calls made before, oldest first, so
an answer may depend on everything that happened earlier (a handle may be
new each time, a reparse may change what a completion finds). -/
structure Clang where
  createIndex : CXIndex
  parseTranslationUnit : List ClangCall → CXIndex → String → List String → String →
    CXTranslationUnit
  codeCompleteAt : List ClangCall → CXTranslationUnit → String → Int → Int → String →
    Option CXCodeCompleteResults
  sortCodeCompletionResults : List CXCompletionResult → List CXCompletionResult

/-! ## `CodeCompletionImpl` -/

/-- The map `std::map<std::string, CXTranslationUnit>`: its entries in
iteration order (ascending keys). -/
abbrev TuCache := List (String × CXTranslationUnit)

namespace TuCache

/-- The lookup `tuCache.find(filename)`: `none` is `tuCache.end()`. -/
def find : TuCache → String → Option CXTranslationUnit
  | [], _ => none
  | (k, v) :: rest, filename => if k = filename then some v else find rest filename

/-- The insertion `tuCache.insert(pair(filename, tu))`: a key that is present
keeps its value, a new key goes to its place in the order of the keys, which
compares two strings character by character. -/
def insert (filename : String) (tu : CXTranslationUnit) : TuCache → TuCache
  | [] => [(filename, tu)]
  | (k, v) :: rest =>
    if k = filename then (k, v) :: rest
    else if filename.data < k.data then (filename, tu) :: (k, v) :: rest
    else (k, v) :: insert filename tu rest

end TuCache

/-- The data members of `CodeCompletionImpl`. -/
structure CodeCompletionImpl where
  index : CXIndex
  tuCache : TuCache
  commandLineArgs : List String
  deriving DecidableEq, Repr

/-- A `CodeCompletionImpl` object together with the history of the calls it
has made into libclang, oldest first. -/
structure Run where
  impl : CodeCompletionImpl
  calls : List ClangCall
  deriving DecidableEq, Repr

namespace CodeCompletionImpl

/-- The constructor. -/
def new (clang : Clang) : Run :=
  { impl := { index := clang.createIndex, tuCache := [], commandLineArgs := [] },
    calls := [ClangCall.createIndex clang.createIndex] }

/-- The loop of `clearTranslationUnitCache` over the entries of the map:
the calls made from iterator position `it` on, added to `calls`. -/
def disposeLoop : TuCache → List ClangCall → List ClangCall
  | [], calls => calls
  | (_, second) :: it, calls =>
    if second ≠ 0 then disposeLoop it (calls ++ [ClangCall.disposeTranslationUnit second])
    else disposeLoop it calls

/-- The method `clearTranslationUnitCache`. -/
def clearTranslationUnitCache (s : Run) : Run :=
  { impl := { s.impl with tuCache := [] },
    calls := disposeLoop s.impl.tuCache s.calls }

/-- The destructor. -/
def delete (s : Run) : Run :=
  let s := clearTranslationUnitCache s
  { s with calls := s.calls ++ [ClangCall.disposeIndex s.impl.index] }

/-- The method `getTranslationUnit`. -/
def getTranslationUnit (clang : Clang) (s : Run) (filename content : String) :
    CXTranslationUnit × Run :=
  match s.impl.tuCache.find filename with
  | none =>
    let argv := s.impl.commandLineArgs
    let tu := clang.parseTranslationUnit s.calls s.impl.index filename argv content
    let calls := s.calls ++ [ClangCall.parseTranslationUnit s.impl.index filename argv content tu]
    if tu ≠ 0 then
      (tu, { impl := { s.impl with tuCache := s.impl.tuCache.insert filename tu },
             calls := calls })
    else (tu, { s with calls := calls })
  | some tu => (tu, s)

/-- The loop of `setOption`: `commandLineArgs.push_back(options[i])` for each
index in turn. -/
def pushAll : List String → List String → List String
  | [], commandLineArgs => commandLineArgs
  | o :: options, commandLineArgs => pushAll options (commandLineArgs ++ [o])

/-- The method `setOption`. -/
def setOption (s : Run) (options : List String) : Run :=
  let s := { s with impl := { s.impl with commandLineArgs := pushAll options [] } }
  clearTranslationUnitCache s

/-- The loop of `complete` over the sorted candidates: the rows after the
candidates from position `i` on have been handled, given the rows `result`
before. -/
def rowLoop : List CXCompletionResult → CodeCompletionResults → CodeCompletionResults
  | [], result => result
  | c :: cs, result =>
    let type := getCursorType c
    if type ≠ COMPLETE_RESULT_NONE then
      let pr := parseCandidate c
      rowLoop cs (result ++ [{ type := type, typedText := pr.typed_text,
                               label := pr.signature }])
    else rowLoop cs result

/-- The method `complete`: the rows in `result` and the object afterwards.
The reserved argument `flag` is not used. -/
def complete (clang : Clang) (s : Run) (result : CodeCompletionResults)
    (filename content : String) (line col : Int) (_flag : Int) :
    CodeCompletionResults × Run :=
  if s.impl.index = 0 then (result, s)
  else
    let result : CodeCompletionResults := []
    let (tu, s) := getTranslationUnit clang s filename content
    if tu = 0 then (result, s)
    else
      let s := { s with calls := s.calls ++ [ClangCall.reparseTranslationUnit tu filename content] }
      let results := clang.codeCompleteAt s.calls tu filename line col content
      let s := { s with calls := s.calls ++
        [ClangCall.codeCompleteAt tu filename line col content results] }
      match results with
      | none => (result, s)
      | some results =>
        if results.NumResults = 0 then (result, s)
        else
          let sorted := clang.sortCodeCompletionResults results.Results
          let s := { s with calls := s.calls ++
            [ClangCall.sortCodeCompletionResults results.Results] }
          let result := rowLoop sorted result
          (result, { s with calls := s.calls ++
            [ClangCall.disposeCodeCompleteResults results] })

end CodeCompletionImpl

/-! ## Vocabulary of the statements -/


/-- The number of occurrences of the character `c` in the string `s`. -/
def countChar (c : Char) (s : String) : Nat := s.data.count c

/-- The string `s` holds neither an opening nor a closing brace. -/
def noBrace (s : String) : Bool :=
  countChar '\x7b' s == 0 && countChar '\x7d' s == 0

namespace Chunks

/-- The chunks `xs` followed by the chunks `ys`, as one sequence. -/
def append : Chunks → Chunks → Chunks
  | done, ys => ys
  | chunk kind text nested rest, ys => chunk kind text nested (append rest ys)

/-- The texts of the result-type chunks of the tree, in the order of the walk
(depth first, left to right; the nested string of an optional chunk is walked
where the chunk stands), one after the other. -/
def resultTypeText : Chunks → String
  | done => ""
  | chunk kind text nested rest =>
    (if kind = CXCompletionChunk_ResultType then CompletionStringParser.append "" text
      else if kind = CXCompletionChunk_Optional then resultTypeText nested
      else "") ++ resultTypeText rest

/-- The tree without its result-type chunks, at every depth. -/
def withoutResultType : Chunks → Chunks
  | done => done
  | chunk kind text nested rest =>
    if kind = CXCompletionChunk_ResultType then withoutResultType rest
    else chunk kind text (withoutResultType nested) (withoutResultType rest)

end Chunks

namespace CompletionStringParser

/-- The parser object at the moment `parse` calls `do_parse`, for a parser
object and a result that were just created. -/
def beforeWalk (result : CXCompletionResult) : CompletionStringParser :=
  let p := { temporary with r := ParseResult.fresh }
  let p := p.setAveailability result.CompletionString
  let p := { p with r := { p.r with type := getCursorType result } }
  { p with enter_optional_count := 0 }

/-- The parser object when `do_parse` returns to `parse`. -/
def afterWalk (result : CXCompletionResult) : CompletionStringParser :=
  (beforeWalk result).do_parse result.CompletionString.chunks

end CompletionStringParser

/-- The string `s` begins with the string `marker`. -/
def beginsWith (marker s : String) : Prop := ∃ rest : String, s = marker ++ rest

/-- The string `s` ends with the string `suffix`. -/
def endsWith (suffix s : String) : Prop := ∃ front : String, s = front ++ suffix

/-- The candidate `result` with the availability `av` in place of its own. -/
def withAvailability (result : CXCompletionResult) (av : CXAvailabilityKind) :
    CXCompletionResult :=
  { result with CompletionString := { result.CompletionString with Availability := av } }

/-- The signature as `parse` has it before it looks at the availability: what
the walk wrote, then the arrow and the return type when there is one. -/
def unmarkedSignature (result : CXCompletionResult) : String :=
  (CompletionStringParser.afterWalk result).r.signature ++
    (if (CompletionStringParser.afterWalk result).r.return_type ≠ "" then
      " -> " ++ (CompletionStringParser.afterWalk result).r.return_type else "")

/-- Two parser objects with the same counter, signature and typed text. -/
def SameText (p q : CompletionStringParser) : Prop :=
  p.enter_optional_count = q.enter_optional_count ∧ p.r.signature = q.r.signature ∧
    p.r.typed_text = q.r.typed_text

namespace CompletionStringParser

/-- The parser object with which `do_parse` enters the nested string of a
top-level optional chunk: the opening marker is written, the counter is 1. -/
def openGroup (p : CompletionStringParser) : CompletionStringParser :=
  { r := { p.r with signature := p.r.signature ++ "\x7b" }, enter_optional_count := 1 }

/-- The parser object with which `do_parse` goes on after a top-level optional
chunk: the closing marker is written, the counter is back to 0. -/
def closeGroup (q : CompletionStringParser) : CompletionStringParser :=
  { r := { q.r with signature := q.r.signature ++ "\x7d" }, enter_optional_count := 0 }

/-- The parser object with which `do_parse` enters the nested string of an
optional chunk that is itself inside an optional chunk: no marker is written,
the counter goes up by one. -/
def enterNested (p : CompletionStringParser) : CompletionStringParser :=
  { r := p.r, enter_optional_count := p.enter_optional_count + 1 }

/-- The parser object with which `do_parse` goes on after such a chunk: the
result as the nested walk `q` left it, the counter of `p`. -/
def leaveNested (p q : CompletionStringParser) : CompletionStringParser :=
  { r := q.r, enter_optional_count := p.enter_optional_count }

/-- From parser object `p` to parser object `q` the signature grew by a suffix
that holds `a` opening and `b` closing braces, and the typed text of `q` holds
no brace: the statement carried through the induction on the chunks. -/
def WalkAdds (p q : CompletionStringParser) (a b : Nat) : Prop :=
  ∃ suffix : String,
    q.r.signature = p.r.signature ++ suffix ∧
    countChar '\x7b' suffix = a ∧ countChar '\x7d' suffix = b ∧
    noBrace q.r.typed_text = true

end CompletionStringParser

open CompletionStringParser

/-- The row that `complete` makes of a kept candidate. -/
def rowOf (c : CXCompletionResult) : CompleteResultRow :=
  { type := getCursorType c, typedText := (parseCandidate c).typed_text,
    label := (parseCandidate c).signature }

/-- The candidate is kept: its kind is not `COMPLETE_RESULT_NONE`. -/
def kept (c : CXCompletionResult) : Bool :=
  decide (getCursorType c ≠ COMPLETE_RESULT_NONE)

/-- The call with which `getTranslationUnit` asks libclang to parse `filename`
in the state `s`, with the answer `tu`. -/
def parseCall (s : Run) (filename content : String) (tu : CXTranslationUnit) : ClangCall :=
  ClangCall.parseTranslationUnit s.impl.index filename s.impl.commandLineArgs content tu

/-- The answer of libclang to the parse call of `getTranslationUnit` in the
state `s`. -/
def parseAnswer (clang : Clang) (s : Run) (filename content : String) : CXTranslationUnit :=
  clang.parseTranslationUnit s.calls s.impl.index filename s.impl.commandLineArgs content

/-- The answer of libclang to the `clang_codeCompleteAt` call of `complete` in
the state `s`: it is asked after `getTranslationUnit` and the reparse. -/
def completionAnswer (clang : Clang) (s : Run) (filename content : String) (line col : Int) :
    Option CXCodeCompleteResults :=
  let got := CodeCompletionImpl.getTranslationUnit clang s filename content
  clang.codeCompleteAt
    (got.2.calls ++ [ClangCall.reparseTranslationUnit got.1 filename content])
    got.1 filename line col content

/-- The calls that were added to the history `before` to give `after`. -/
def newCalls (before after : List ClangCall) : List ClangCall :=
  after.drop before.length

/-- The call is a `clang_reparseTranslationUnit` or a `clang_codeCompleteAt`. -/
def ClangCall.isReparseOrComplete : ClangCall → Bool
  | .reparseTranslationUnit _ _ _ => true
  | .codeCompleteAt _ _ _ _ _ _ => true
  | _ => false

/-- The disposal calls for the handles of a cache, in the order of its entries;
an entry with a null handle has none. -/
def disposals (cache : TuCache) : List ClangCall :=
  (cache.filter (fun e => decide (e.2 ≠ 0))).map (fun e => ClangCall.disposeTranslationUnit e.2)

open CodeCompletionImpl

namespace Chunks

/-- The texts of the typed-text chunks of the tree, in the order of the walk
(depth first, left to right; the nested string of an optional chunk is walked
where the chunk stands), one after the other. -/
def typedText : Chunks → String
  | done => ""
  | chunk kind text nested rest =>
    (if kind = CXCompletionChunk_TypedText then CompletionStringParser.append "" text
      else if kind = CXCompletionChunk_Optional then typedText nested
      else "") ++ typedText rest

/-- The tree with the empty string in place of each missing text, at every
depth. -/
def fillMissing : Chunks → Chunks
  | done => done
  | chunk kind text nested rest =>
    chunk kind (some (text.getD "")) (fillMissing nested) (fillMissing rest)

end Chunks

/-- The candidate `result` with the chunks `chunks` in place of its own. -/
def withChunks (result : CXCompletionResult) (chunks : Chunks) : CXCompletionResult :=
  { result with CompletionString := { result.CompletionString with chunks := chunks } }

namespace CompletionStringParser

end CompletionStringParser

/-- One operation on a `CodeCompletionImpl` object: `setOption`, `complete`
(with the rows the caller passes in) or `clearTranslationUnitCache`. -/
inductive Op where
  | setOption (options : List String)
  | complete (result : CodeCompletionResults) (filename content : String) (line col flag : Int)
  | clear
  deriving DecidableEq, Repr

/-- The state after the operation `op` in the state `s`. -/
def applyOp (clang : Clang) (s : Run) : Op → Run
  | Op.setOption options => setOption s options
  | Op.complete result filename content line col flag =>
    (complete clang s result filename content line col flag).2
  | Op.clear => clearTranslationUnitCache s

/-- The state after the operations `ops`, in this order, from the state `s`. -/
def runOps (clang : Clang) (s : Run) : List Op → Run
  | [] => s
  | op :: ops => runOps clang (applyOp clang s op) ops

/-- The arguments of the last `setOption` among the operations `ops`, and
`args` when there is none. -/
def lastArgs (args : List String) : List Op → List String
  | [] => args
  | Op.setOption options :: ops => lastArgs options ops
  | _ :: ops => lastArgs args ops

/-- The handles that the parses of the history returned, null ones left out,
oldest first. -/
def parsedHandles : List ClangCall → List CXTranslationUnit
  | [] => []
  | ClangCall.parseTranslationUnit _ _ _ _ tu :: calls =>
    if tu ≠ 0 then tu :: parsedHandles calls else parsedHandles calls
  | _ :: calls => parsedHandles calls

/-- The handles that the history disposed, oldest first. -/
def disposedHandles : List ClangCall → List CXTranslationUnit
  | [] => []
  | ClangCall.disposeTranslationUnit tu :: calls => tu :: disposedHandles calls
  | _ :: calls => disposedHandles calls

/-- The handles held in a cache, in the order of its entries. -/
def cacheHandles (cache : TuCache) : List CXTranslationUnit :=
  cache.map (fun e => e.2)

/-- Every parse of libclang answers with a handle that no parse of the history
before it has returned. -/
def FreshHandles (clang : Clang) : Prop :=
  ∀ (calls : List ClangCall) (index : CXIndex) (filename : String) (argv : List String)
    (content : String),
    clang.parseTranslationUnit calls index filename argv content ∉ parsedHandles calls

/-- What holds of the handles in every state that the operations reach when
handles are new: no cached handle is null, no handle was returned by two
parses, and the handles returned so far are the cached ones and the disposed
ones, each once. -/
def HandlesAccounted (s : Run) : Prop :=
  (∀ e ∈ s.impl.tuCache, e.2 ≠ 0) ∧
  (parsedHandles s.calls).Nodup ∧
  (parsedHandles s.calls).Perm (cacheHandles s.impl.tuCache ++ disposedHandles s.calls)

/-- Every entry of the cache was put there by a parse of its file under the
stored arguments. -/
def ParsedUnderStoredArgs (s : Run) : Prop :=
  ∀ (filename : String) (tu : CXTranslationUnit), (filename, tu) ∈ s.impl.tuCache →
    ∃ content : String,
      ClangCall.parseTranslationUnit s.impl.index filename s.impl.commandLineArgs content tu
        ∈ s.calls

/-! ## Example inputs, engines and states -/

/-- A candidate whose completion string is the two typed-text chunks "a" and
"b" and nothing else. -/
def twoTypedTexts : CXCompletionResult :=
  { CursorKind := CXCursor_FunctionDecl,
    CompletionString :=
      { Availability := CXAvailability_Available,
        chunks := .chunk CXCompletionChunk_TypedText (some "a") .done
          (.chunk CXCompletionChunk_TypedText (some "b") .done .done) } }

/-- The chunks of `f(x[, y[, z]])` without placeholders: typed text, an opening
parenthesis, a text, an optional group that holds a comma, a text and a second
optional group, and a closing parenthesis. -/
def nestedOptionalChunks : Chunks :=
  .chunk CXCompletionChunk_TypedText (some "f") .done
  (.chunk CXCompletionChunk_LeftParen none .done
  (.chunk CXCompletionChunk_Text (some "x") .done
  (.chunk CXCompletionChunk_Optional none
    (.chunk CXCompletionChunk_Comma none .done
    (.chunk CXCompletionChunk_Text (some "y") .done
    (.chunk CXCompletionChunk_Optional none
      (.chunk CXCompletionChunk_Comma none .done
      (.chunk CXCompletionChunk_Text (some "z") .done .done)) .done)))
  (.chunk CXCompletionChunk_RightParen none .done .done))))

/-- A function candidate with the chunks `nestedOptionalChunks`. -/
def nestedOptional : CXCompletionResult :=
  { CursorKind := CXCursor_FunctionDecl,
    CompletionString :=
      { Availability := CXAvailability_Available, chunks := nestedOptionalChunks } }

/-- A method candidate `void f()`: a result-type chunk "void", the typed text
"f" and a pair of parentheses. -/
def voidFunction : CXCompletionResult :=
  { CursorKind := CXCursor_CXXMethod,
    CompletionString :=
      { Availability := CXAvailability_Available,
        chunks := .chunk CXCompletionChunk_ResultType (some "void") .done
          (.chunk CXCompletionChunk_TypedText (some "f") .done
          (.chunk CXCompletionChunk_LeftParen none .done
          (.chunk CXCompletionChunk_RightParen none .done .done))) } }

/-- An available candidate whose only chunk is a text chunk that reads
"(NOTACCESS) x". -/
def markerInText : CXCompletionResult :=
  { CursorKind := CXCursor_VarDecl,
    CompletionString :=
      { Availability := CXAvailability_Available,
        chunks := .chunk CXCompletionChunk_Text (some "(NOTACCESS) x") .done .done } }

/-- A macro candidate `M`; `getCursorType` gives it `COMPLETE_RESULT_NONE`. -/
def macroCandidate : CXCompletionResult :=
  { CursorKind := CXCursor_MacroDefinition,
    CompletionString :=
      { Availability := CXAvailability_Available,
        chunks := .chunk CXCompletionChunk_TypedText (some "M") .done .done } }

/-- A variable candidate `a`. -/
def variableCandidate : CXCompletionResult :=
  { CursorKind := CXCursor_VarDecl,
    CompletionString :=
      { Availability := CXAvailability_Available,
        chunks := .chunk CXCompletionChunk_TypedText (some "a") .done .done } }

/-- A stand-in for libclang: the index is 1, every parse gives a handle that
was not given before (the length of the history plus one), every completion
finds `void f()`, the macro `M` and the variable `a` in this order, and sorting
puts the candidates in the opposite order. -/
def stubClang : Clang :=
  { createIndex := 1,
    parseTranslationUnit := fun calls _ _ _ _ => calls.length + 1,
    codeCompleteAt := fun _ _ _ _ _ _ =>
      some { Results := [voidFunction, macroCandidate, variableCandidate] },
    sortCodeCompletionResults := fun l => l.reverse }

/-- A stand-in for libclang whose parse gives no handle. -/
def failingClang : Clang :=
  { stubClang with parseTranslationUnit := fun _ _ _ _ _ => 0 }

/-- The state after construction and `setOption` with `-std=c++17`. -/
def configured17 : Run := setOption (new stubClang) ["-std=c++17"]

/-- The state after a request for `a.cpp` in `configured17`. -/
def requested17 : Run :=
  (complete stubClang configured17 [] "a.cpp" "int a; void f();" 1 1 0).2

/-- The candidate of `push_back`: a result-type chunk "void", the typed text
"push_back", an opening parenthesis, a placeholder with the text `p` and a
closing parenthesis, with the cursor kind `kind` and the availability `av`. -/
def pushBack (kind : CXCursorKind) (av : CXAvailabilityKind) (p : Option String) :
    CXCompletionResult :=
  { CursorKind := kind,
    CompletionString :=
      { Availability := av,
        chunks := .chunk CXCompletionChunk_ResultType (some "void") .done
          (.chunk CXCompletionChunk_TypedText (some "push_back") .done
          (.chunk CXCompletionChunk_LeftParen none .done
          (.chunk CXCompletionChunk_Placeholder p .done
          (.chunk CXCompletionChunk_RightParen none .done .done)))) } }

/-- A candidate whose typed text is missing, followed by the text "x". -/
def missingTypedText : CXCompletionResult :=
  { CursorKind := CXCursor_VarDecl,
    CompletionString :=
      { Availability := CXAvailability_Available,
        chunks := .chunk CXCompletionChunk_TypedText none .done
          (.chunk CXCompletionChunk_Text (some "x") .done .done) } }

/-- A stand-in for libclang that could not create its index. -/
def noIndexClang : Clang :=
  { stubClang with createIndex := 0 }

/-- A stand-in for libclang whose completion finds no candidate: it answers
with a result container that holds none. -/
def emptyClang : Clang :=
  { stubClang with codeCompleteAt := fun _ _ _ _ _ _ => some { Results := [] } }

/-- A stand-in for libclang whose parse answers with a handle greater than all
the handles that the history holds, so with a new one each time. -/
def freshClang : Clang :=
  { stubClang with
    parseTranslationUnit := fun calls _ _ _ _ => (parsedHandles calls).foldr max 0 + 1 }

/-- A run of operations: configure, two requests, configure again, a request. -/
def sampleOps : List Op :=
  [Op.setOption ["-std=c++17"],
   Op.complete [] "a.cpp" "int a;" 1 1 0,
   Op.complete [] "b.cpp" "int b;" 1 1 0,
   Op.setOption ["-std=c++11"],
   Op.complete [] "a.cpp" "int a;" 1 1 0]

theorem countChar_append (c : Char) (s t : String) :
    countChar c (s ++ t) = countChar c s + countChar c t := by
  simp [countChar, String.data_append, List.count_append]

namespace CompletionStringParser

theorem do_parse_count (cs : Chunks) : ∀ p : CompletionStringParser,
    (do_parse p cs).enter_optional_count = p.enter_optional_count := by
  induction cs with
  | done => intro p; rfl
  | chunk kind text nested rest ihn ihr =>
    intro p
    cases kind <;> simp only [do_parse, ihr, addSig]
    split <;> split <;> simp_all [addSig]

theorem do_parse_availability (cs : Chunks) : ∀ p : CompletionStringParser,
    (do_parse p cs).r.availability = p.r.availability ∧
      (do_parse p cs).r.type = p.r.type := by
  induction cs with
  | done => intro p; exact ⟨rfl, rfl⟩
  | chunk kind text nested rest ihn ihr =>
    intro p
    cases kind <;> simp only [do_parse, ihr, addSig, and_self]
    split <;> split <;> simp_all [addSig]

theorem do_parse_append (xs ys : Chunks) : ∀ p : CompletionStringParser,
    do_parse p (xs.append ys) = do_parse (do_parse p xs) ys := by
  induction xs with
  | done => intro p; rfl
  | chunk kind text nested rest ihn ihr =>
    intro p
    simp only [Chunks.append, do_parse, ihr]

/-- The shape of `parse` on a new parser object and a new result. -/
theorem parseCandidate_signature (result : CXCompletionResult) :
    (parseCandidate result).signature =
      (if result.CompletionString.Availability = CXAvailability_NotAccessible
        then "(NOTACCESS) " else "") ++
      ((afterWalk result).r.signature ++
        (if (afterWalk result).r.return_type ≠ "" then
          " -> " ++ (afterWalk result).r.return_type else "")) := by
  have hav := (do_parse_availability result.CompletionString.chunks (beforeWalk result)).1
  obtain ⟨k, av, ch⟩ := result
  cases av <;>
    simp [parseCandidate, parse, afterWalk, beforeWalk, setAveailability, temporary, addSig,
      ParseResult.fresh] at hav ⊢ <;>
    split <;> simp_all [addSig, beforeWalk, setAveailability, temporary, ParseResult.fresh, String.append_assoc]

theorem append_eq (stdstr : String) (text : Option String) :
    append stdstr text = stdstr ++ append "" text := by
  cases text <;> rfl

theorem do_parse_optional_zero (p : CompletionStringParser) (text : Option String)
    (nested rest : Chunks) (h0 : p.enter_optional_count = 0) :
    do_parse p (.chunk CXCompletionChunk_Optional text nested rest) =
      do_parse (closeGroup (do_parse (openGroup p) nested)) rest := by
  simp only [do_parse, h0, if_true, addSig, Int.zero_add, do_parse_count, Int.sub_self,
    openGroup, closeGroup]

theorem do_parse_optional_pos (p : CompletionStringParser) (text : Option String)
    (nested rest : Chunks) (h0 : p.enter_optional_count ≠ 0) :
    do_parse p (.chunk CXCompletionChunk_Optional text nested rest) =
      do_parse (leaveNested p (do_parse (enterNested p) nested)) rest := by
  simp only [do_parse, h0, if_false, addSig, Int.add_sub_cancel, do_parse_count,
    enterNested, leaveNested]

theorem WalkAdds.trans {p q r : CompletionStringParser} {a b c d : Nat}
    (h1 : WalkAdds p q a b) (h2 : WalkAdds q r c d) : WalkAdds p r (a + c) (b + d) := by
  obtain ⟨s1, e1, a1, b1, _⟩ := h1
  obtain ⟨s2, e2, a2, b2, t2⟩ := h2
  refine ⟨s1 ++ s2, ?_, ?_, ?_, t2⟩
  · rw [e2, e1, String.append_assoc]
  · rw [countChar_append, a1, a2]
  · rw [countChar_append, b1, b2]

theorem do_parse_return_type (cs : Chunks) : ∀ p : CompletionStringParser,
    (do_parse p cs).r.return_type = p.r.return_type ++ cs.resultTypeText := by
  induction cs with
  | done => intro p; exact (String.append_empty _).symm
  | chunk kind text nested rest ihn ihr =>
    intro p
    cases kind
    case CXCompletionChunk_Optional =>
      by_cases h0 : p.enter_optional_count = 0
      · rw [do_parse_optional_zero p text nested rest h0, ihr]
        simp [closeGroup, openGroup, ihn, Chunks.resultTypeText, String.append_assoc]
      · rw [do_parse_optional_pos p text nested rest h0, ihr]
        simp [leaveNested, enterNested, ihn, Chunks.resultTypeText, String.append_assoc]
    case CXCompletionChunk_ResultType =>
      simp only [do_parse, ihr, Chunks.resultTypeText, if_true]
      rw [append_eq, String.append_assoc]
    all_goals simp [do_parse, ihr, Chunks.resultTypeText, addSig]

theorem beforeWalk_facts (result : CXCompletionResult) :
    (beforeWalk result).enter_optional_count = 0 ∧ (beforeWalk result).r.signature = "" ∧
      (beforeWalk result).r.typed_text = "" ∧ (beforeWalk result).r.return_type = "" := by
  obtain ⟨k, av, ch⟩ := result
  cases av <;> simp [beforeWalk, setAveailability, temporary, ParseResult.fresh]

theorem do_parse_sameText (cs : Chunks) : ∀ p q : CompletionStringParser,
    SameText p q → SameText (do_parse p cs) (do_parse q cs) := by
  induction cs with
  | done => intro p q h; exact h
  | chunk kind text nested rest ihn ihr =>
    intro p q h
    obtain ⟨hc, hs, ht⟩ := h
    cases kind
    case CXCompletionChunk_Optional =>
      by_cases h0 : p.enter_optional_count = 0
      · rw [do_parse_optional_zero p text nested rest h0,
          do_parse_optional_zero q text nested rest (hc ▸ h0)]
        have hin := ihn (openGroup p) (openGroup q) ⟨rfl, by simp [openGroup, hs], ht⟩
        exact ihr _ _ ⟨rfl, by simp [closeGroup, hin.2.1], hin.2.2⟩
      · rw [do_parse_optional_pos p text nested rest h0,
          do_parse_optional_pos q text nested rest (hc ▸ h0)]
        have hin := ihn (enterNested p) (enterNested q) ⟨by simp [enterNested, hc], hs, ht⟩
        exact ihr _ _ ⟨hc, hin.2.1, hin.2.2⟩
    all_goals
      simp only [do_parse]
      apply ihr
      simp [SameText, addSig, hc, hs, ht]

theorem do_parse_withoutResultType (cs : Chunks) : ∀ p q : CompletionStringParser,
    SameText p q → SameText (do_parse p cs) (do_parse q cs.withoutResultType) := by
  induction cs with
  | done => intro p q h; exact h
  | chunk kind text nested rest ihn ihr =>
    intro p q h
    obtain ⟨hc, hs, ht⟩ := h
    cases kind
    case CXCompletionChunk_Optional =>
      simp only [Chunks.withoutResultType, reduceCtorEq, if_false]
      by_cases h0 : p.enter_optional_count = 0
      · rw [do_parse_optional_zero p text nested rest h0,
          do_parse_optional_zero q text _ _ (hc ▸ h0)]
        have hin := ihn (openGroup p) (openGroup q) ⟨rfl, by simp [openGroup, hs], ht⟩
        exact ihr _ _ ⟨rfl, by simp [closeGroup, hin.2.1], hin.2.2⟩
      · rw [do_parse_optional_pos p text nested rest h0,
          do_parse_optional_pos q text _ _ (hc ▸ h0)]
        have hin := ihn (enterNested p) (enterNested q) ⟨by simp [enterNested, hc], hs, ht⟩
        exact ihr _ _ ⟨hc, hin.2.1, hin.2.2⟩
    case CXCompletionChunk_ResultType =>
      simp only [Chunks.withoutResultType, if_true, do_parse]
      exact ihr _ _ ⟨hc, hs, ht⟩
    all_goals
      simp only [Chunks.withoutResultType, reduceCtorEq, if_false, do_parse]
      apply ihr
      simp [SameText, addSig, hc, hs, ht]

theorem parseCandidate_fields (result : CXCompletionResult) :
    (parseCandidate result).return_type = (afterWalk result).r.return_type ∧
    (parseCandidate result).typed_text = (afterWalk result).r.typed_text := by
  have hav := (do_parse_availability result.CompletionString.chunks (beforeWalk result)).1
  obtain ⟨k, av, ch⟩ := result
  cases av <;>
    simp [parseCandidate, parse, afterWalk, beforeWalk, setAveailability, temporary, addSig,
      ParseResult.fresh] at hav ⊢ <;>
    split <;> simp_all [addSig, beforeWalk, setAveailability, temporary, ParseResult.fresh]

theorem beforeWalk_sameText (result : CXCompletionResult) (av : CXAvailabilityKind) :
    SameText (beforeWalk (withAvailability result av)) (beforeWalk result) ∧
      (beforeWalk (withAvailability result av)).r.return_type =
        (beforeWalk result).r.return_type := by
  obtain ⟨k, av0, ch⟩ := result
  cases av <;> cases av0 <;>
    simp [SameText, withAvailability, beforeWalk, setAveailability, temporary, ParseResult.fresh]

theorem unmarkedSignature_withAvailability (result : CXCompletionResult)
    (av : CXAvailabilityKind) :
    unmarkedSignature (withAvailability result av) = unmarkedSignature result := by
  have h1 := beforeWalk_sameText result av
  have h2 := do_parse_sameText result.CompletionString.chunks _ _ h1.1
  have h3 : (afterWalk (withAvailability result av)).r.return_type =
      (afterWalk result).r.return_type := by
    simp only [afterWalk, do_parse_return_type, h1.2]
    rfl
  have h4 : (afterWalk (withAvailability result av)).r.signature =
      (afterWalk result).r.signature := h2.2.1
  simp only [unmarkedSignature, h3, h4]

end CompletionStringParser

namespace CodeCompletionImpl

theorem pushAll_eq (options : List String) : ∀ acc : List String,
    pushAll options acc = acc ++ options := by
  induction options with
  | nil => intro acc; simp [pushAll]
  | cons o os ih => intro acc; simp [pushAll, ih]

theorem disposeLoop_eq (cache : TuCache) : ∀ calls : List ClangCall,
    disposeLoop cache calls = calls ++ disposals cache := by
  induction cache with
  | nil => intro calls; simp [disposeLoop, disposals]
  | cons e rest ih =>
    intro calls
    obtain ⟨k, tu⟩ := e
    by_cases h : tu = 0
    · simp [disposeLoop, h, ih, disposals]
    · simp [disposeLoop, h, ih, disposals]

theorem rowLoop_eq (cs : List CXCompletionResult) : ∀ result : CodeCompletionResults,
    rowLoop cs result = result ++ (cs.filter kept).map rowOf := by
  induction cs with
  | nil => intro result; simp [rowLoop]
  | cons c cs ih =>
    intro result
    by_cases h : getCursorType c = COMPLETE_RESULT_NONE
    · simp [rowLoop, h, ih, kept]
    · simp [rowLoop, h, ih, kept, rowOf]

theorem find_insert (cache : TuCache) (filename : String) (tu : CXTranslationUnit)
    (h : cache.find filename = none) (k : String) :
    (cache.insert filename tu).find k = if k = filename then some tu else cache.find k := by
  induction cache with
  | nil =>
    by_cases hk : k = filename
    · simp [TuCache.insert, TuCache.find, hk]
    · simp [TuCache.insert, TuCache.find, hk, Ne.symm hk]
  | cons e rest ih =>
    obtain ⟨k1, v1⟩ := e
    by_cases h1 : k1 = filename
    · simp [TuCache.find, h1] at h
    · have hrest : TuCache.find rest filename = none := by
        simpa [TuCache.find, h1] using h
      by_cases hlt : filename.data < k1.data
      · have e : TuCache.insert filename tu ((k1, v1) :: rest) =
            (filename, tu) :: (k1, v1) :: rest := by
          simp only [TuCache.insert, if_neg h1, if_pos hlt]
        rw [e]
        by_cases hk : k = filename
        · simp [TuCache.find, hk]
        · simp [TuCache.find, hk, Ne.symm hk]
      · have e : TuCache.insert filename tu ((k1, v1) :: rest) =
            (k1, v1) :: TuCache.insert filename tu rest := by
          simp only [TuCache.insert, if_neg h1, if_neg hlt]
        rw [e]
        by_cases hk1 : k1 = k
        · have : k ≠ filename := hk1 ▸ h1
          simp [TuCache.find, hk1, this]
        · simp [TuCache.find, hk1, ih hrest]

theorem insert_perm (cache : TuCache) (filename : String) (tu : CXTranslationUnit)
    (h : cache.find filename = none) :
    (cache.insert filename tu).Perm ((filename, tu) :: cache) := by
  induction cache with
  | nil => simp [TuCache.insert]
  | cons e rest ih =>
    obtain ⟨k1, v1⟩ := e
    by_cases h1 : k1 = filename
    · simp [TuCache.find, h1] at h
    · have hrest : TuCache.find rest filename = none := by
        simpa [TuCache.find, h1] using h
      by_cases hlt : filename.data < k1.data
      · simp only [TuCache.insert, if_neg h1, if_pos hlt]
        exact List.Perm.refl _
      · simp only [TuCache.insert, if_neg h1, if_neg hlt]
        exact ((ih hrest).cons (k1, v1)).trans (List.Perm.swap _ _ _)

/-- The value of `complete` when the index is there, a translation unit was
obtained and libclang answered the completion with a result container. -/
theorem complete_of_results (clang : Clang) (s : Run) (result : CodeCompletionResults)
    (filename content : String) (line col flag : Int) (results : CXCodeCompleteResults)
    (hindex : s.impl.index ≠ 0)
    (htu : (getTranslationUnit clang s filename content).1 ≠ 0)
    (hres : completionAnswer clang s filename content line col = some results) :
    (complete clang s result filename content line col flag).1 =
      if results.NumResults = 0 then []
      else ((clang.sortCodeCompletionResults results.Results).filter kept).map rowOf := by
  simp only [completionAnswer] at hres
  simp only [complete, hindex, if_false, htu, hres]
  by_cases h0 : results.NumResults = 0
  · simp [h0]
  · simp [h0, rowLoop_eq]

end CodeCompletionImpl

namespace CompletionStringParser

theorem do_parse_typed_text (cs : Chunks) : ∀ p : CompletionStringParser,
    (do_parse p cs).r.typed_text = p.r.typed_text ++ cs.typedText := by
  induction cs with
  | done => intro p; exact (String.append_empty _).symm
  | chunk kind text nested rest ihn ihr =>
    intro p
    cases kind
    case CXCompletionChunk_Optional =>
      by_cases h0 : p.enter_optional_count = 0
      · rw [do_parse_optional_zero p text nested rest h0, ihr]
        simp [closeGroup, openGroup, ihn, Chunks.typedText, String.append_assoc]
      · rw [do_parse_optional_pos p text nested rest h0, ihr]
        simp [leaveNested, enterNested, ihn, Chunks.typedText, String.append_assoc]
    case CXCompletionChunk_TypedText =>
      simp only [do_parse, ihr, Chunks.typedText, if_true, addSig]
      rw [append_eq, String.append_assoc]
    all_goals simp [do_parse, ihr, Chunks.typedText, addSig]

theorem parseCandidate_typed_text (result : CXCompletionResult) :
    (parseCandidate result).typed_text = result.CompletionString.chunks.typedText := by
  rw [(parseCandidate_fields result).2, afterWalk, do_parse_typed_text,
    (beforeWalk_facts result).2.2.1, String.empty_append]

theorem do_parse_fillMissing (cs : Chunks) : ∀ p : CompletionStringParser,
    do_parse p cs.fillMissing = do_parse p cs := by
  induction cs with
  | done => intro p; rfl
  | chunk kind text nested rest ihn ihr =>
    intro p
    cases kind <;> cases text <;> simp [do_parse, Chunks.fillMissing, ihn, ihr, append]

end CompletionStringParser

namespace CodeCompletionImpl

/-- The value of `complete` when the index is there and a translation unit was
obtained: the calls after those of `getTranslationUnit` and the rows. -/
theorem complete_of_tu (clang : Clang) (s : Run) (result : CodeCompletionResults)
    (filename content : String) (line col flag : Int)
    (hindex : s.impl.index ≠ 0)
    (htu : (getTranslationUnit clang s filename content).1 ≠ 0) :
    complete clang s result filename content line col flag =
      match completionAnswer clang s filename content line col with
      | none =>
        ([], { (getTranslationUnit clang s filename content).2 with
          calls := (getTranslationUnit clang s filename content).2.calls ++
            [ClangCall.reparseTranslationUnit (getTranslationUnit clang s filename content).1
                filename content,
             ClangCall.codeCompleteAt (getTranslationUnit clang s filename content).1
                filename line col content none] })
      | some results =>
        if results.NumResults = 0 then
          ([], { (getTranslationUnit clang s filename content).2 with
            calls := (getTranslationUnit clang s filename content).2.calls ++
              [ClangCall.reparseTranslationUnit (getTranslationUnit clang s filename content).1
                  filename content,
               ClangCall.codeCompleteAt (getTranslationUnit clang s filename content).1
                  filename line col content (some results)] })
        else
          (((clang.sortCodeCompletionResults results.Results).filter kept).map rowOf,
           { (getTranslationUnit clang s filename content).2 with
            calls := (getTranslationUnit clang s filename content).2.calls ++
              [ClangCall.reparseTranslationUnit (getTranslationUnit clang s filename content).1
                  filename content,
               ClangCall.codeCompleteAt (getTranslationUnit clang s filename content).1
                  filename line col content (some results),
               ClangCall.sortCodeCompletionResults results.Results,
               ClangCall.disposeCodeCompleteResults results] }) := by
  simp only [complete, hindex, if_false, htu, completionAnswer]
  generalize clang.codeCompleteAt _ _ _ _ _ _ = answer
  cases answer with
  | none => simp
  | some results => by_cases h0 : results.NumResults = 0 <;> simp [h0, rowLoop_eq]

/-- The value of `complete` when the index is there and no translation unit
was obtained. -/
theorem complete_of_no_tu (clang : Clang) (s : Run) (result : CodeCompletionResults)
    (filename content : String) (line col flag : Int)
    (hindex : s.impl.index ≠ 0)
    (htu : (getTranslationUnit clang s filename content).1 = 0) :
    complete clang s result filename content line col flag =
      ([], (getTranslationUnit clang s filename content).2) := by
  simp only [complete, hindex, if_false, htu, if_true]

end CodeCompletionImpl

namespace CompletionStringParser

end CompletionStringParser

theorem parsedHandles_append (xs ys : List ClangCall) :
    parsedHandles (xs ++ ys) = parsedHandles xs ++ parsedHandles ys := by
  induction xs with
  | nil => rfl
  | cons e es ih =>
    cases e with
    | parseTranslationUnit i f a c tu => by_cases h : tu = 0 <;> simp [parsedHandles, h, ih]
    | _ => simp [parsedHandles, ih]

theorem disposedHandles_append (xs ys : List ClangCall) :
    disposedHandles (xs ++ ys) = disposedHandles xs ++ disposedHandles ys := by
  induction xs with
  | nil => rfl
  | cons e es ih => cases e <;> simp [disposedHandles, ih]

theorem disposals_cons (k : String) (tu : CXTranslationUnit) (rest : TuCache) :
    disposals ((k, tu) :: rest) =
      if tu ≠ 0 then ClangCall.disposeTranslationUnit tu :: disposals rest
      else disposals rest := by
  by_cases h : tu = 0 <;> simp [disposals, List.filter_cons, h]

theorem parsedHandles_disposals (cache : TuCache) : parsedHandles (disposals cache) = [] := by
  induction cache with
  | nil => rfl
  | cons e rest ih =>
    obtain ⟨k, tu⟩ := e
    rw [disposals_cons]
    split
    · simpa [parsedHandles] using ih
    · exact ih

theorem disposedHandles_disposals (cache : TuCache) (h : ∀ e ∈ cache, e.2 ≠ 0) :
    disposedHandles (disposals cache) = cacheHandles cache := by
  induction cache with
  | nil => rfl
  | cons e rest ih =>
    obtain ⟨k, tu⟩ := e
    have he : tu ≠ 0 := h (k, tu) (List.mem_cons_self _ _)
    have hr := ih (fun x hx => h x (List.mem_cons_of_mem _ hx))
    rw [disposals_cons, if_pos he]
    simp [disposedHandles, cacheHandles, hr]

theorem mem_parsedHandles (calls : List ClangCall) (index : CXIndex) (filename : String)
    (argv : List String) (content : String) (tu : CXTranslationUnit) (h0 : tu ≠ 0)
    (h : ClangCall.parseTranslationUnit index filename argv content tu ∈ calls) :
    tu ∈ parsedHandles calls := by
  induction calls with
  | nil => simp at h
  | cons e es ih =>
    rcases List.mem_cons.mp h with h1 | h1
    · subst h1; simp [parsedHandles, h0]
    · have := ih h1
      cases e <;> simp only [parsedHandles] <;> try exact this
      split
      · exact List.mem_cons_of_mem _ this
      · exact this

theorem freshClang_fresh : FreshHandles freshClang := by
  intro calls index filename argv content
  have hle : ∀ (l : List Nat) (x : Nat), x ∈ l → x ≤ l.foldr max 0 := by
    intro l
    induction l with
    | nil => intro x hx; simp at hx
    | cons a as ih =>
      intro x hx
      rcases List.mem_cons.mp hx with h | h
      · subst h; simp
      · have := ih x h
        simp only [List.foldr_cons]
        omega
  intro hmem
  have := hle _ _ hmem
  simp only [freshClang] at this
  omega

namespace CodeCompletionImpl

theorem getTranslationUnit_hit (clang : Clang) (s : Run) (filename content : String)
    (tu : CXTranslationUnit) (h : s.impl.tuCache.find filename = some tu) :
    getTranslationUnit clang s filename content = (tu, s) := by
  simp only [getTranslationUnit, h]

theorem getTranslationUnit_parsed (clang : Clang) (s : Run) (filename content : String)
    (h : s.impl.tuCache.find filename = none)
    (hne : parseAnswer clang s filename content ≠ 0) :
    getTranslationUnit clang s filename content =
      (parseAnswer clang s filename content,
        { impl := { s.impl with tuCache :=
            s.impl.tuCache.insert filename (parseAnswer clang s filename content) },
          calls := s.calls ++ [parseCall s filename content
            (parseAnswer clang s filename content)] }) := by
  simp only [getTranslationUnit, h]
  exact if_pos hne

theorem getTranslationUnit_failed (clang : Clang) (s : Run) (filename content : String)
    (h : s.impl.tuCache.find filename = none)
    (h0 : parseAnswer clang s filename content = 0) :
    getTranslationUnit clang s filename content =
      (0, { s with calls := s.calls ++ [parseCall s filename content 0] }) := by
  have h2 : clang.parseTranslationUnit s.calls s.impl.index filename
      s.impl.commandLineArgs content = 0 := h0
  simp only [getTranslationUnit, h, h2, parseCall]
  rfl

/-- The state after `complete` is the state before, or the state after
`getTranslationUnit` with further calls that neither parse nor dispose a
translation unit. -/
theorem complete_state (clang : Clang) (s : Run) (result : CodeCompletionResults)
    (filename content : String) (line col flag : Int) :
    (complete clang s result filename content line col flag).2 = s ∨
    ∃ extra : List ClangCall,
      (complete clang s result filename content line col flag).2 =
        { impl := (getTranslationUnit clang s filename content).2.impl,
          calls := (getTranslationUnit clang s filename content).2.calls ++ extra } ∧
      parsedHandles extra = [] ∧ disposedHandles extra = [] := by
  by_cases hindex : s.impl.index = 0
  · left
    simp only [complete, hindex, if_true]
  · right
    by_cases htu : (getTranslationUnit clang s filename content).1 = 0
    · refine ⟨[], ?_, rfl, rfl⟩
      rw [complete_of_no_tu clang s result filename content line col flag hindex htu]
      simp
    · rw [complete_of_tu clang s result filename content line col flag hindex htu]
      cases completionAnswer clang s filename content line col with
      | none => exact ⟨_, rfl, rfl, rfl⟩
      | some results =>
        by_cases h0 : results.NumResults = 0
        · simp only [h0, if_true]
          exact ⟨_, rfl, rfl, rfl⟩
        · simp only [h0, if_false]
          exact ⟨_, rfl, rfl, rfl⟩

theorem accounted_new (clang : Clang) : HandlesAccounted (new clang) := by
  simp [HandlesAccounted, new, parsedHandles, disposedHandles, cacheHandles]

theorem accounted_clear (s : Run) (h : HandlesAccounted s) :
    HandlesAccounted (clearTranslationUnitCache s) := by
  obtain ⟨h0, hn, hp⟩ := h
  simp only [HandlesAccounted, clearTranslationUnitCache, disposeLoop_eq, parsedHandles_append,
    parsedHandles_disposals, List.append_nil, disposedHandles_append,
    disposedHandles_disposals _ h0, cacheHandles, List.map_nil, List.nil_append]
  refine ⟨by simp, hn, ?_⟩
  exact hp.trans List.perm_append_comm

theorem accounted_setOption (s : Run) (options : List String) (h : HandlesAccounted s) :
    HandlesAccounted (setOption s options) :=
  accounted_clear { s with impl := { s.impl with commandLineArgs := pushAll options [] } } h

theorem mem_insert (cache : TuCache) (filename : String) (tu : CXTranslationUnit)
    (h : cache.find filename = none) (e : String × CXTranslationUnit) :
    e ∈ cache.insert filename tu ↔ e = (filename, tu) ∨ e ∈ cache := by
  rw [(insert_perm cache filename tu h).mem_iff, List.mem_cons]

theorem accounted_getTranslationUnit (clang : Clang) (hfresh : FreshHandles clang) (s : Run)
    (filename content : String) (h : HandlesAccounted s) :
    HandlesAccounted (getTranslationUnit clang s filename content).2 := by
  obtain ⟨h0, hn, hp⟩ := h
  cases hfind : s.impl.tuCache.find filename with
  | some tu =>
    rw [getTranslationUnit_hit clang s filename content tu hfind]
    exact ⟨h0, hn, hp⟩
  | none =>
    by_cases hne : parseAnswer clang s filename content = 0
    · rw [getTranslationUnit_failed clang s filename content hfind hne]
      simp only [HandlesAccounted, parsedHandles_append, disposedHandles_append, parseCall,
        parsedHandles, disposedHandles, List.append_nil, ne_eq, not_true_eq_false, if_false]
      exact ⟨h0, hn, hp⟩
    · rw [getTranslationUnit_parsed clang s filename content hfind hne]
      have hnew : parseAnswer clang s filename content ∉ parsedHandles s.calls :=
        hfresh s.calls s.impl.index filename s.impl.commandLineArgs content
      simp only [HandlesAccounted, parsedHandles_append, disposedHandles_append, parseCall,
        parsedHandles, disposedHandles, List.append_nil, ne_eq, hne, not_false_eq_true, if_true]
      refine ⟨?_, ?_, ?_⟩
      · intro e he
        rcases (mem_insert _ _ _ hfind e).mp he with h1 | h1
        · rw [h1]; exact hne
        · exact h0 e h1
      · exact List.nodup_append.mpr ⟨hn, List.nodup_singleton _, by simpa using hnew⟩
      · have hc : (cacheHandles (TuCache.insert filename (parseAnswer clang s filename content)
            s.impl.tuCache)).Perm
            (parseAnswer clang s filename content :: cacheHandles s.impl.tuCache) :=
          (insert_perm _ _ _ hfind).map _
        refine List.Perm.trans ?_ (List.Perm.append_right _ hc.symm)
        exact List.perm_append_singleton _ _ |>.trans (List.Perm.cons _ hp)

theorem accounted_complete (clang : Clang) (hfresh : FreshHandles clang) (s : Run)
    (result : CodeCompletionResults) (filename content : String) (line col flag : Int)
    (h : HandlesAccounted s) :
    HandlesAccounted (complete clang s result filename content line col flag).2 := by
  rcases complete_state clang s result filename content line col flag with he | ⟨extra, he, hp, hd⟩
  · rw [he]; exact h
  · rw [he]
    have hg := accounted_getTranslationUnit clang hfresh s filename content h
    simpa [HandlesAccounted, parsedHandles_append, disposedHandles_append, hp, hd] using hg

theorem accounted_runOps (clang : Clang) (hfresh : FreshHandles clang) (ops : List Op) :
    ∀ s : Run, HandlesAccounted s → HandlesAccounted (runOps clang s ops) := by
  induction ops with
  | nil => intro s h; exact h
  | cons op ops ih =>
    intro s h
    apply ih
    cases op with
    | setOption options => exact accounted_setOption s options h
    | complete result filename content line col flag =>
      exact accounted_complete clang hfresh s result filename content line col flag h
    | clear => exact accounted_clear s h

end CodeCompletionImpl

namespace CodeCompletionImpl

theorem find_some_mem (cache : TuCache) (filename : String) (tu : CXTranslationUnit)
    (h : cache.find filename = some tu) : (filename, tu) ∈ cache := by
  induction cache with
  | nil => simp [TuCache.find] at h
  | cons e rest ih =>
    obtain ⟨k, v⟩ := e
    by_cases hk : k = filename
    · simp only [TuCache.find, hk, if_true, Option.some.injEq] at h
      rw [hk, h]; exact List.mem_cons_self _ _
    · simp only [TuCache.find, hk, if_false] at h
      exact List.mem_cons_of_mem _ (ih h)

/-- What `getTranslationUnit` leaves alone: the index, the stored arguments and
the calls made before; and the handle it returns, when not null, was parsed for
this file under the stored arguments, given that the cached ones were. -/
theorem getTranslationUnit_frame (clang : Clang) (s : Run) (filename content : String)
    (h : ParsedUnderStoredArgs s) :
    (getTranslationUnit clang s filename content).2.impl.index = s.impl.index ∧
    (getTranslationUnit clang s filename content).2.impl.commandLineArgs =
      s.impl.commandLineArgs ∧
    (∀ call ∈ s.calls, call ∈ (getTranslationUnit clang s filename content).2.calls) ∧
    ParsedUnderStoredArgs (getTranslationUnit clang s filename content).2 ∧
    ((getTranslationUnit clang s filename content).1 ≠ 0 →
      ∃ content2 : String,
        ClangCall.parseTranslationUnit s.impl.index filename s.impl.commandLineArgs content2
          (getTranslationUnit clang s filename content).1 ∈
          (getTranslationUnit clang s filename content).2.calls) := by
  cases hfind : s.impl.tuCache.find filename with
  | some tu =>
    rw [getTranslationUnit_hit clang s filename content tu hfind]
    exact ⟨rfl, rfl, fun _ hc => hc, h, fun _ => h filename tu (find_some_mem _ _ _ hfind)⟩
  | none =>
    by_cases hne : parseAnswer clang s filename content = 0
    · rw [getTranslationUnit_failed clang s filename content hfind hne]
      refine ⟨rfl, rfl, fun _ hc => List.mem_append_left _ hc, ?_, fun h0 => absurd rfl h0⟩
      intro f tu hmem
      obtain ⟨c2, hc2⟩ := h f tu hmem
      exact ⟨c2, List.mem_append_left _ hc2⟩
    · rw [getTranslationUnit_parsed clang s filename content hfind hne]
      refine ⟨rfl, rfl, fun _ hc => List.mem_append_left _ hc, ?_, fun _ => ⟨content, ?_⟩⟩
      · intro f tu hmem
        rcases (mem_insert _ _ _ hfind (f, tu)).mp hmem with h1 | h1
        · simp only [Prod.mk.injEq] at h1
          refine ⟨content, List.mem_append_right _ ?_⟩
          rw [h1.1, h1.2]
          exact List.mem_singleton.mpr rfl
        · obtain ⟨c2, hc2⟩ := h f tu h1
          exact ⟨c2, List.mem_append_left _ hc2⟩
      · exact List.mem_append_right _ (List.mem_singleton.mpr rfl)

theorem underArgs_clear (s : Run) : ParsedUnderStoredArgs (clearTranslationUnitCache s) := by
  intro f tu hmem
  simp [clearTranslationUnitCache] at hmem

theorem underArgs_complete (clang : Clang) (s : Run) (result : CodeCompletionResults)
    (filename content : String) (line col flag : Int) (h : ParsedUnderStoredArgs s) :
    ParsedUnderStoredArgs (complete clang s result filename content line col flag).2 ∧
    (complete clang s result filename content line col flag).2.impl.commandLineArgs =
      s.impl.commandLineArgs ∧
    (complete clang s result filename content line col flag).2.impl.index = s.impl.index := by
  rcases complete_state clang s result filename content line col flag with he | ⟨extra, he, _, _⟩
  · rw [he]; exact ⟨h, rfl, rfl⟩
  · obtain ⟨hi, ha, _, hp, _⟩ := getTranslationUnit_frame clang s filename content h
    rw [he]
    refine ⟨?_, ha, hi⟩
    intro f tu hmem
    obtain ⟨c2, hc2⟩ := hp f tu hmem
    exact ⟨c2, List.mem_append_left _ hc2⟩

theorem underArgs_runOps (clang : Clang) (ops : List Op) : ∀ s : Run,
    ParsedUnderStoredArgs s →
    ParsedUnderStoredArgs (runOps clang s ops) ∧
    (runOps clang s ops).impl.commandLineArgs = lastArgs s.impl.commandLineArgs ops ∧
    (runOps clang s ops).impl.index = s.impl.index := by
  induction ops with
  | nil => intro s h; exact ⟨h, rfl, rfl⟩
  | cons op ops ih =>
    intro s h
    cases op with
    | setOption options =>
      have h1 := ih (setOption s options) (underArgs_clear _)
      have ha : (setOption s options).impl.commandLineArgs = options := by
        simp [setOption, clearTranslationUnitCache, pushAll_eq]
      rw [ha] at h1
      exact ⟨h1.1, h1.2.1, h1.2.2⟩
    | complete result filename content line col flag =>
      obtain ⟨hp, ha, hi⟩ := underArgs_complete clang s result filename content line col flag h
      have h1 := ih _ hp
      simp only [runOps, applyOp, lastArgs]
      rw [ha, hi] at h1
      exact h1
    | clear =>
      exact ih (clearTranslationUnitCache s) (underArgs_clear _)

theorem underArgs_new (clang : Clang) : ParsedUnderStoredArgs (new clang) := by
  intro f tu hmem
  simp [new] at hmem

/-- When no handle was returned by two parses, two parse calls of the history
that returned the same handle, not null, are the same call. -/
theorem parse_call_unique (calls : List ClangCall) (hn : (parsedHandles calls).Nodup)
    (tu : CXTranslationUnit) (h0 : tu ≠ 0)
    (i1 i2 : CXIndex) (f1 f2 : String) (a1 a2 : List String) (c1 c2 : String)
    (h1 : ClangCall.parseTranslationUnit i1 f1 a1 c1 tu ∈ calls)
    (h2 : ClangCall.parseTranslationUnit i2 f2 a2 c2 tu ∈ calls) : a1 = a2 := by
  induction calls with
  | nil => simp at h1
  | cons e es ih =>
    have key : ∀ (i : CXIndex) (f : String) (a : List String) (c : String),
        ClangCall.parseTranslationUnit i f a c tu ∈ es → tu ∈ parsedHandles es :=
      fun i f a c hm => mem_parsedHandles es i f a c tu h0 hm
    rcases List.mem_cons.mp h1 with e1 | e1 <;> rcases List.mem_cons.mp h2 with e2 | e2
    · rw [← e1] at e2
      simp only [ClangCall.parseTranslationUnit.injEq] at e2
      exact e2.2.2.1.symm
    · rw [← e1] at hn
      simp only [parsedHandles, ne_eq, h0, not_false_eq_true, if_true, List.nodup_cons] at hn
      exact absurd (key _ _ _ _ e2) hn.1
    · rw [← e2] at hn
      simp only [parsedHandles, ne_eq, h0, not_false_eq_true, if_true, List.nodup_cons] at hn
      exact absurd (key _ _ _ _ e1) hn.1
    · apply ih _ e1 e2
      cases e with
      | parseTranslationUnit i f a c t =>
        by_cases ht : t = 0
        · simpa [parsedHandles, ht] using hn
        · simp only [parsedHandles, ne_eq, ht, not_false_eq_true, if_true,
            List.nodup_cons] at hn
          exact hn.2
      | _ => simpa [parsedHandles] using hn

end CodeCompletionImpl

/-! ## The claims -/

/-- C1, as stated, fails: a cursor kind that `getCursorType` does not name (here
the enumerator with code 36, a type alias declaration) is classified
`COMPLETE_RESULT_NONE`, not `COMPLETE_RESULT_OTHER`. -/
theorem C1_unlisted_kind_is_none :
    getCursorType { CursorKind := unlisted 36,
                    CompletionString := { Availability := CXAvailability_Available,
                                          chunks := .done } } = COMPLETE_RESULT_NONE ∧
    getCursorType { CursorKind := unlisted 36,
                    CompletionString := { Availability := CXAvailability_Available,
                                          chunks := .done } } ≠ COMPLETE_RESULT_OTHER := by
  decide

/-- C1, amended: `getCursorType` returns `COMPLETE_RESULT_NONE` for every cursor
kind it does not name, as well as for macro definitions, not-implemented markers
and parameter declarations, and for no other kind; it returns
`COMPLETE_RESULT_OTHER` for enum declarations only. -/
theorem C1_getCursorType_none_and_other (result : CXCompletionResult) :
    (getCursorType result = COMPLETE_RESULT_NONE ↔
      (result.CursorKind = CXCursor_MacroDefinition ∨
       result.CursorKind = CXCursor_NotImplemented ∨
       result.CursorKind = CXCursor_ParmDecl ∨
       ∃ code, result.CursorKind = unlisted code)) ∧
    (getCursorType result = COMPLETE_RESULT_OTHER ↔
      result.CursorKind = CXCursor_EnumDecl) := by
  obtain ⟨k, cs⟩ := result
  cases k <;> simp [getCursorType]

/-- C2, the code at the failing input: for the candidate with the two typed-text
chunks "a" and "b", `parse` leaves the typed text "ab" and the signature "aab"
(the second chunk appends the whole typed text so far, not its own text). -/
theorem C2_two_typed_texts :
    (parseCandidate twoTypedTexts).typed_text = "ab" ∧
    (parseCandidate twoTypedTexts).signature = "aab" := by
  decide

/-- C4: after `parse` the return type is the texts of the result-type chunks of
the tree one after the other; when it is not empty the signature ends with
" -> " followed by it; the walk writes the same signature as on the tree
without its result-type chunks (their text is not written where they stand);
and when the return type is empty nothing follows what the walk wrote. -/
theorem C4_return_type_placement (result : CXCompletionResult) :
    (parseCandidate result).return_type = result.CompletionString.chunks.resultTypeText ∧
    ((parseCandidate result).return_type ≠ "" →
      endsWith (" -> " ++ (parseCandidate result).return_type)
        (parseCandidate result).signature) ∧
    (afterWalk result).r.signature =
      (do_parse (beforeWalk result)
        result.CompletionString.chunks.withoutResultType).r.signature ∧
    ((parseCandidate result).return_type = "" →
      (parseCandidate result).signature =
        (if result.CompletionString.Availability = CXAvailability_NotAccessible
          then "(NOTACCESS) " else "") ++ (afterWalk result).r.signature) := by
  have hf := (parseCandidate_fields result).1
  refine ⟨?_, ?_, ?_, ?_⟩
  · rw [hf, afterWalk, do_parse_return_type, (beforeWalk_facts result).2.2.2,
      String.empty_append]
  · intro hne
    rw [hf] at hne ⊢
    refine ⟨(if result.CompletionString.Availability = CXAvailability_NotAccessible
      then "(NOTACCESS) " else "") ++ (afterWalk result).r.signature, ?_⟩
    rw [parseCandidate_signature, if_pos hne, String.append_assoc]
  · exact (do_parse_withoutResultType result.CompletionString.chunks _ _ ⟨rfl, rfl, rfl⟩).2.1
  · intro he
    rw [hf] at he
    rw [parseCandidate_signature, if_neg (not_not.mpr he), String.append_empty]

/-- C4 at a concrete candidate: `void f()` gets the signature "f() -> void". -/
theorem C4_return_type_placement_witness :
    (parseCandidate voidFunction).signature = "f() -> void" ∧
    (parseCandidate voidFunction).return_type = "void" ∧
    endsWith (" -> " ++ (parseCandidate voidFunction).return_type)
      (parseCandidate voidFunction).signature :=
  ⟨by decide, by decide, (C4_return_type_placement voidFunction).2.1 (by decide)⟩

/-- C5, as stated, fails: the signature of `markerInText` begins with
"(NOTACCESS) " although its availability is not `CXAvailability_NotAccessible`. -/
theorem C5_marker_from_chunk_text :
    beginsWith "(NOTACCESS) " (parseCandidate markerInText).signature ∧
    markerInText.CompletionString.Availability ≠ CXAvailability_NotAccessible :=
  ⟨⟨"x", by decide⟩, by decide⟩

/-- C5, amended: the signature after `parse` is "(NOTACCESS) " followed by the
unmarked signature when the availability is `CXAvailability_NotAccessible`, and
the unmarked signature alone otherwise, where the unmarked signature (what the
walk wrote, then the arrow and return type) does not depend on the availability.
So it begins with the marker whenever the candidate is not accessible, and for
another availability only when the unmarked signature itself begins with it. -/
theorem C5_accessibility_marker (result : CXCompletionResult) :
    (parseCandidate result).signature =
      (if result.CompletionString.Availability = CXAvailability_NotAccessible
        then "(NOTACCESS) " else "") ++ unmarkedSignature result ∧
    (∀ av : CXAvailabilityKind,
      unmarkedSignature (withAvailability result av) = unmarkedSignature result) ∧
    (result.CompletionString.Availability = CXAvailability_NotAccessible →
      beginsWith "(NOTACCESS) " (parseCandidate result).signature) ∧
    (result.CompletionString.Availability ≠ CXAvailability_NotAccessible →
      (parseCandidate result).signature = unmarkedSignature result) ∧
    (beginsWith "(NOTACCESS) " (parseCandidate result).signature ↔
      (result.CompletionString.Availability = CXAvailability_NotAccessible ∨
        beginsWith "(NOTACCESS) " (unmarkedSignature result))) := by
  have hsig : (parseCandidate result).signature =
      (if result.CompletionString.Availability = CXAvailability_NotAccessible
        then "(NOTACCESS) " else "") ++ unmarkedSignature result := by
    rw [parseCandidate_signature, unmarkedSignature]
  have hyes : result.CompletionString.Availability = CXAvailability_NotAccessible →
      beginsWith "(NOTACCESS) " (parseCandidate result).signature := by
    intro h
    exact ⟨unmarkedSignature result, by rw [hsig, if_pos h]⟩
  have hno : result.CompletionString.Availability ≠ CXAvailability_NotAccessible →
      (parseCandidate result).signature = unmarkedSignature result := by
    intro h
    rw [hsig, if_neg h, String.empty_append]
  refine ⟨hsig, unmarkedSignature_withAvailability result, hyes, hno, ?_⟩
  constructor
  · intro hb
    by_cases h : result.CompletionString.Availability = CXAvailability_NotAccessible
    · exact Or.inl h
    · exact Or.inr (hno h ▸ hb)
  · intro h
    rcases h with h | h
    · exact hyes h
    · by_cases h2 : result.CompletionString.Availability = CXAvailability_NotAccessible
      · exact hyes h2
      · rw [hno h2]; exact h

/-- C5 at a concrete candidate: `void f()` made inaccessible gets the signature
"(NOTACCESS) f() -> void". -/
theorem C5_accessibility_marker_witness :
    (parseCandidate (withAvailability voidFunction CXAvailability_NotAccessible)).signature
      = "(NOTACCESS) f() -> void" ∧
    beginsWith "(NOTACCESS) "
      (parseCandidate (withAvailability voidFunction CXAvailability_NotAccessible)).signature :=
  ⟨by decide,
   (C5_accessibility_marker
      (withAvailability voidFunction CXAvailability_NotAccessible)).2.2.1 (by decide)⟩

/-- C6: when libclang answers a request with a result container, no row of
`complete` has the kind `COMPLETE_RESULT_NONE`, and (the sort of libclang being
a rearrangement of the raw candidates) the rows are, up to order, one row for
each raw candidate whose kind is not `COMPLETE_RESULT_NONE` and none for the
others. -/
theorem C6_no_none_rows (clang : Clang) (s : Run) (result : CodeCompletionResults)
    (filename content : String) (line col flag : Int) (results : CXCodeCompleteResults)
    (hindex : s.impl.index ≠ 0)
    (htu : (getTranslationUnit clang s filename content).1 ≠ 0)
    (hres : completionAnswer clang s filename content line col = some results) :
    (∀ row ∈ (complete clang s result filename content line col flag).1,
      row.type ≠ COMPLETE_RESULT_NONE) ∧
    ((clang.sortCodeCompletionResults results.Results).Perm results.Results →
      (complete clang s result filename content line col flag).1.Perm
        ((results.Results.filter kept).map rowOf)) := by
  rw [complete_of_results clang s result filename content line col flag results hindex htu hres]
  by_cases h0 : results.NumResults = 0
  · have hnil : results.Results = [] := List.length_eq_zero.mp h0
    simp [h0, hnil]
  · simp only [h0, if_false]
    constructor
    · intro row hrow
      obtain ⟨c, hc, rfl⟩ := List.mem_map.mp hrow
      have hk := (List.mem_filter.mp hc).2
      simpa [kept, rowOf] using hk
    · intro hperm
      exact (hperm.filter _).map _

/-- C6 at a concrete request: of the raw candidates `void f()`, macro `M` and
variable `a` the macro gives no row. -/
theorem C6_no_none_rows_witness :
    (complete stubClang configured17 [] "a.cpp" "int a; void f();" 1 1 0).1.Perm
        [rowOf voidFunction, rowOf variableCandidate] ∧
    ∀ row ∈ (complete stubClang configured17 [] "a.cpp" "int a; void f();" 1 1 0).1,
      row.type ≠ COMPLETE_RESULT_NONE :=
  ⟨(C6_no_none_rows stubClang configured17 [] "a.cpp" "int a; void f();" 1 1 0
      { Results := [voidFunction, macroCandidate, variableCandidate] }
      (by decide) (by decide) rfl).2 (List.reverse_perm _),
   (C6_no_none_rows stubClang configured17 [] "a.cpp" "int a; void f();" 1 1 0
      { Results := [voidFunction, macroCandidate, variableCandidate] }
      (by decide) (by decide) rfl).1⟩

/-- C7: when libclang answers a request with a result container that is not
empty, the rows of `complete` are, in this order, the candidates as libclang
sorted them, without those of kind `COMPLETE_RESULT_NONE`, each turned into the
row of its kind, of the typed text and of the signature that `parse` gives for
this candidate alone on a new `ParseResult`. -/
theorem C7_rows_in_sorted_order (clang : Clang) (s : Run) (result : CodeCompletionResults)
    (filename content : String) (line col flag : Int) (results : CXCodeCompleteResults)
    (hindex : s.impl.index ≠ 0)
    (htu : (getTranslationUnit clang s filename content).1 ≠ 0)
    (hres : completionAnswer clang s filename content line col = some results)
    (hne : results.Results ≠ []) :
    (complete clang s result filename content line col flag).1 =
      ((clang.sortCodeCompletionResults results.Results).filter
          (fun c => decide (getCursorType c ≠ COMPLETE_RESULT_NONE))).map
        (fun c => { type := getCursorType c,
                    typedText := (CompletionStringParser.parse CompletionStringParser.temporary
                      ParseResult.fresh c).r.typed_text,
                    label := (CompletionStringParser.parse CompletionStringParser.temporary
                      ParseResult.fresh c).r.signature }) := by
  rw [complete_of_results clang s result filename content line col flag results hindex htu hres]
  have h0 : ¬ results.NumResults = 0 := fun h => hne (List.length_eq_zero.mp h)
  rw [if_neg h0]
  rfl

/-- C7 at a concrete request: the raw candidates are `void f()`, macro `M`,
variable `a`; sorted they are `a`, `M`, `f`; the rows are those of `a` and `f`. -/
theorem C7_rows_in_sorted_order_witness :
    (complete stubClang configured17 [] "a.cpp" "int a; void f();" 1 1 0).1 =
      [ { type := COMPLETE_RESULT_VAR, typedText := "a", label := "a" },
        { type := COMPLETE_RESULT_METHOD, typedText := "f", label := "f() -> void" } ] :=
  (C7_rows_in_sorted_order stubClang configured17 [] "a.cpp" "int a; void f();" 1 1 0
      { Results := [voidFunction, macroCandidate, variableCandidate] }
      (by decide) (by decide) rfl (by decide)).trans (by decide)

/-- C8: after `setOption` the stored arguments are the given ones, in order;
the cache has no entry; the calls made are exactly one disposal for each handle
that was in the cache, so each such handle has been disposed; the index is the
same; and the next `complete`, for any file, starts by asking libclang to parse
that file with the given arguments. -/
theorem C8_setOption_replaces_and_clears (s : Run) (args : List String) :
    (setOption s args).impl.commandLineArgs = args ∧
    (setOption s args).impl.tuCache = [] ∧
    (setOption s args).calls = s.calls ++ disposals s.impl.tuCache ∧
    (∀ (filename : String) (tu : CXTranslationUnit),
      (filename, tu) ∈ s.impl.tuCache → tu ≠ 0 →
      ClangCall.disposeTranslationUnit tu ∈ newCalls s.calls (setOption s args).calls) ∧
    (setOption s args).impl.index = s.impl.index ∧
    (∀ (clang : Clang) (result : CodeCompletionResults) (filename content : String)
        (line col flag : Int), s.impl.index ≠ 0 →
      ∃ later : List ClangCall,
        newCalls (setOption s args).calls
            (complete clang (setOption s args) result filename content line col flag).2.calls =
          ClangCall.parseTranslationUnit s.impl.index filename args content
            (parseAnswer clang (setOption s args) filename content) :: later) := by
  have hargs : (setOption s args).impl.commandLineArgs = args := by
    simp [setOption, clearTranslationUnitCache, pushAll_eq]
  have hcache : (setOption s args).impl.tuCache = [] := rfl
  have hcalls : (setOption s args).calls = s.calls ++ disposals s.impl.tuCache := by
    simp [setOption, clearTranslationUnitCache, disposeLoop_eq]
  have hindex : (setOption s args).impl.index = s.impl.index := rfl
  refine ⟨hargs, hcache, hcalls, ?_, hindex, ?_⟩
  · intro filename tu hmem hne
    rw [hcalls, newCalls, List.drop_left]
    exact List.mem_map.mpr ⟨(filename, tu), List.mem_filter.mpr ⟨hmem, by simpa using hne⟩, rfl⟩
  · intro clang result filename content line col flag hi
    generalize hS : setOption s args = S at hargs hcache hindex
    have hi2 : S.impl.index ≠ 0 := by rw [hindex]; exact hi
    have hget : getTranslationUnit clang S filename content =
        (parseAnswer clang S filename content,
          if parseAnswer clang S filename content ≠ 0 then
            { impl := { S.impl with tuCache :=
                S.impl.tuCache.insert filename (parseAnswer clang S filename content) },
              calls := S.calls ++ [parseCall S filename content
                (parseAnswer clang S filename content)] }
          else { S with calls := S.calls ++ [parseCall S filename content
                (parseAnswer clang S filename content)] }) := by
      simp only [getTranslationUnit, hcache, TuCache.find, parseAnswer, parseCall]
      split <;> rfl
    have hpc : ∀ tu, ClangCall.parseTranslationUnit s.impl.index filename args content tu =
        parseCall S filename content tu := by
      intro tu; rw [parseCall, hargs, hindex]
    simp only [complete, hi2, if_false, hget, newCalls]
    by_cases htu : parseAnswer clang S filename content = 0
    · refine ⟨[], ?_⟩
      simp [htu, hpc]
    · simp only [htu, ne_eq, not_false_eq_true, if_true, if_false]
      split
      · exact ⟨_, by simp [hpc, List.append_assoc]; rfl⟩
      · split
        · exact ⟨_, by simp [hpc, List.append_assoc]; rfl⟩
        · exact ⟨_, by simp [hpc, List.append_assoc]; rfl⟩

/-- C8 at a concrete run: after `setOption` with `-std=c++17` and a request for
`a.cpp` the cache holds the handle 2; `setOption` with `-std=c++11` then leaves
the arguments `-std=c++11`, an empty cache and the handle 2 disposed, and the
next request for `b.cpp` starts with a parse under `-std=c++11`. -/
theorem C8_setOption_replaces_and_clears_witness :
    requested17.impl.tuCache = [("a.cpp", 2)] ∧
    (setOption requested17 ["-std=c++11"]).impl.commandLineArgs = ["-std=c++11"] ∧
    (setOption requested17 ["-std=c++11"]).impl.tuCache = [] ∧
    ClangCall.disposeTranslationUnit 2 ∈
      newCalls requested17.calls (setOption requested17 ["-std=c++11"]).calls ∧
    ∃ later : List ClangCall,
      newCalls (setOption requested17 ["-std=c++11"]).calls
          (complete stubClang (setOption requested17 ["-std=c++11"]) [] "b.cpp" "int b;"
            1 1 0).2.calls =
        ClangCall.parseTranslationUnit requested17.impl.index "b.cpp" ["-std=c++11"] "int b;"
          (parseAnswer stubClang (setOption requested17 ["-std=c++11"]) "b.cpp" "int b;")
          :: later :=
  ⟨by decide,
   (C8_setOption_replaces_and_clears requested17 ["-std=c++11"]).1,
   (C8_setOption_replaces_and_clears requested17 ["-std=c++11"]).2.1,
   (C8_setOption_replaces_and_clears requested17 ["-std=c++11"]).2.2.2.1 "a.cpp" 2
      (by decide) (by decide),
   (C8_setOption_replaces_and_clears requested17 ["-std=c++11"]).2.2.2.2.2
      stubClang [] "b.cpp" "int b;" 1 1 0 (by decide)⟩

/-- C9: when the cache has a handle for `filename`, `getTranslationUnit` returns
it whatever `content` is and leaves the object and the history of calls as they
were (no call is made, the cache is the same); when the cache has none and
libclang parses to a handle `h` that is not null, it returns `h`, leaves the
arguments and the index alone, and the cache afterwards is the old one with the
entry of `filename` and `h` inserted: one entry more, `filename` found with `h`,
every other key found as before. -/
theorem C9_getTranslationUnit_cache (clang : Clang) (s : Run) (filename content : String) :
    (∀ tu : CXTranslationUnit, s.impl.tuCache.find filename = some tu →
      getTranslationUnit clang s filename content = (tu, s)) ∧
    (s.impl.tuCache.find filename = none → parseAnswer clang s filename content ≠ 0 →
      (getTranslationUnit clang s filename content).1 = parseAnswer clang s filename content ∧
      (getTranslationUnit clang s filename content).2.calls =
        s.calls ++ [parseCall s filename content (parseAnswer clang s filename content)] ∧
      (getTranslationUnit clang s filename content).2.impl.index = s.impl.index ∧
      (getTranslationUnit clang s filename content).2.impl.commandLineArgs =
        s.impl.commandLineArgs ∧
      (getTranslationUnit clang s filename content).2.impl.tuCache.Perm
        ((filename, parseAnswer clang s filename content) :: s.impl.tuCache) ∧
      ∀ k : String, (getTranslationUnit clang s filename content).2.impl.tuCache.find k =
        if k = filename then some (parseAnswer clang s filename content)
        else s.impl.tuCache.find k) := by
  constructor
  · intro tu h
    simp only [getTranslationUnit, h]
  · intro h hne
    have hget : getTranslationUnit clang s filename content =
        (parseAnswer clang s filename content,
          { impl := { s.impl with tuCache :=
              s.impl.tuCache.insert filename (parseAnswer clang s filename content) },
            calls := s.calls ++ [parseCall s filename content
              (parseAnswer clang s filename content)] }) := by
      simp only [getTranslationUnit, h]
      exact if_pos hne
    rw [hget]
    exact ⟨rfl, rfl, rfl, rfl, insert_perm _ _ _ h, find_insert _ _ _ h⟩

/-- C9 at a concrete state: in `requested17` the file `a.cpp` is cached with the
handle 2 and is returned without a call, for a new content; `b.cpp` is not
cached, is parsed to the handle 7 and found with it afterwards. -/
theorem C9_getTranslationUnit_cache_witness :
    getTranslationUnit stubClang requested17 "a.cpp" "int other;" = (2, requested17) ∧
    (getTranslationUnit stubClang requested17 "b.cpp" "int b;").1 = 7 ∧
    (getTranslationUnit stubClang requested17 "b.cpp" "int b;").2.impl.tuCache.find "b.cpp"
      = some 7 ∧
    (getTranslationUnit stubClang requested17 "b.cpp" "int b;").2.impl.tuCache.find "a.cpp"
      = some 2 :=
  ⟨(C9_getTranslationUnit_cache stubClang requested17 "a.cpp" "int other;").1 2 (by decide),
   ((C9_getTranslationUnit_cache stubClang requested17 "b.cpp" "int b;").2
      (by decide) (by decide)).1.trans (by decide),
   by decide, by decide⟩

/-- C10: when the index is there, `filename` is not in the cache and libclang
parses it to no handle, `complete` returns no row, whatever rows the caller
passed in; the object is as before (the cache is the same, `filename` is still
not in it); and the only call made is that parse, so `filename` is neither
reparsed nor completed. -/
theorem C10_parse_failure (clang : Clang) (s : Run) (result : CodeCompletionResults)
    (filename content : String) (line col flag : Int)
    (hindex : s.impl.index ≠ 0)
    (habsent : s.impl.tuCache.find filename = none)
    (hparse : parseAnswer clang s filename content = 0) :
    (complete clang s result filename content line col flag).1 = [] ∧
    (complete clang s result filename content line col flag).2.impl = s.impl ∧
    (complete clang s result filename content line col flag).2.impl.tuCache.find filename
      = none ∧
    newCalls s.calls (complete clang s result filename content line col flag).2.calls =
      [parseCall s filename content 0] ∧
    ∀ call ∈ newCalls s.calls (complete clang s result filename content line col flag).2.calls,
      call.isReparseOrComplete = false := by
  have hget : getTranslationUnit clang s filename content =
      (0, { s with calls := s.calls ++ [parseCall s filename content 0] }) := by
    have h2 : clang.parseTranslationUnit s.calls s.impl.index filename
        s.impl.commandLineArgs content = 0 := hparse
    simp only [getTranslationUnit, habsent, h2, parseCall]
    rfl
  have hall : complete clang s result filename content line col flag =
      ([], { s with calls := s.calls ++ [parseCall s filename content 0] }) := by
    simp only [complete, hindex, if_false, hget, if_true]
  rw [hall]
  refine ⟨rfl, rfl, habsent, ?_, ?_⟩
  · simp [newCalls]
  · intro call hcall
    simp only [newCalls, List.drop_left, List.mem_singleton] at hcall
    rw [hcall]; rfl

/-- C10 at a concrete request: with a libclang whose parse fails, a request for
`a.cpp` on a new object gives no row, although the caller passed one in, and
leaves the cache empty. -/
theorem C10_parse_failure_witness :
    (complete failingClang (new failingClang) [rowOf voidFunction] "a.cpp" "int a;" 1 1 0).1
      = [] ∧
    (complete failingClang (new failingClang) [rowOf voidFunction] "a.cpp" "int a;"
      1 1 0).2.impl.tuCache = [] :=
  ⟨(C10_parse_failure failingClang (new failingClang) [rowOf voidFunction] "a.cpp" "int a;"
      1 1 0 (by decide) (by decide) (by decide)).1,
   by decide⟩

/-! ## C14, C15: clearing and configuring twice -/

/-- C14: `clearTranslationUnitCache` is defined on every state; doing it twice
gives the same state as doing it once, the history of calls included, so the
second time nothing is disposed; the cache is empty after it and the stored
arguments and the index are as before; and on a state whose cache has no entry
it disposes nothing and leaves the state as it is. -/
theorem C14_clear_idempotent (s : Run) :
    clearTranslationUnitCache (clearTranslationUnitCache s) = clearTranslationUnitCache s ∧
    newCalls (clearTranslationUnitCache s).calls
      (clearTranslationUnitCache (clearTranslationUnitCache s)).calls = [] ∧
    (clearTranslationUnitCache s).impl.tuCache = [] ∧
    (clearTranslationUnitCache s).impl.commandLineArgs = s.impl.commandLineArgs ∧
    (clearTranslationUnitCache s).impl.index = s.impl.index ∧
    (s.impl.tuCache = [] → clearTranslationUnitCache s = s) := by
  have h2 : clearTranslationUnitCache (clearTranslationUnitCache s) =
      clearTranslationUnitCache s := rfl
  refine ⟨h2, ?_, rfl, rfl, rfl, ?_⟩
  · rw [h2]; simp [newCalls]
  · intro h
    obtain ⟨⟨index, cache, args⟩, calls⟩ := s
    simp only at h
    subst h
    rfl

/-- C14 at a concrete state: clearing `requested17`, whose cache holds the
handle 2, disposes that handle; clearing again changes nothing. -/
theorem C14_clear_idempotent_witness :
    newCalls requested17.calls (clearTranslationUnitCache requested17).calls =
      [ClangCall.disposeTranslationUnit 2] ∧
    clearTranslationUnitCache (clearTranslationUnitCache requested17) =
      clearTranslationUnitCache requested17 ∧
    clearTranslationUnitCache (new stubClang) = new stubClang :=
  ⟨by decide, (C14_clear_idempotent requested17).1,
   (C14_clear_idempotent (new stubClang)).2.2.2.2.2 (by decide)⟩

/-- C15: `setOption` with the same arguments twice gives the same state as
once (stored arguments, cache, index and history of calls), so whatever
`getTranslationUnit` does next, the arguments it passes to the parse included,
is the same in both cases. -/
theorem C15_setOption_twice (s : Run) (args : List String) :
    setOption (setOption s args) args = setOption s args ∧
    (setOption (setOption s args) args).impl.commandLineArgs = args ∧
    ∀ (clang : Clang) (filename content : String),
      getTranslationUnit clang (setOption (setOption s args) args) filename content =
        getTranslationUnit clang (setOption s args) filename content := by
  have h2 : setOption (setOption s args) args = setOption s args := rfl
  refine ⟨h2, ?_, ?_⟩
  · rw [h2]; simp [setOption, clearTranslationUnitCache, pushAll_eq]
  · intro clang filename content
    rw [h2]

/-- C15 at a concrete state: `setOption` with `-std=c++11` on `requested17`
disposes the handle 2; a second `setOption` with `-std=c++11` adds no call. -/
theorem C15_setOption_twice_witness :
    newCalls requested17.calls (setOption requested17 ["-std=c++11"]).calls =
      [ClangCall.disposeTranslationUnit 2] ∧
    setOption (setOption requested17 ["-std=c++11"]) ["-std=c++11"] =
      setOption requested17 ["-std=c++11"] :=
  ⟨by decide, (C15_setOption_twice requested17 ["-std=c++11"]).1⟩

/-! ## C17: missing texts -/

/-- C17: `parse` is defined on every candidate, and on a candidate some of
whose chunk texts are missing it gives the same result as on the candidate with
the empty string in place of each missing text. -/
theorem C17_missing_text_is_empty (result : CXCompletionResult) :
    parseCandidate result =
      parseCandidate (withChunks result result.CompletionString.chunks.fillMissing) := by
  obtain ⟨k, av, ch⟩ := result
  simp only [parseCandidate, parse, withChunks, do_parse_fillMissing]
  rfl

/-! ## C19: the typed text -/

/-- C19: the typed text after `parse` is the texts of the typed-text chunks of
the tree, nested ones included, in the order of the walk, one after the other;
so two candidates with the same typed-text chunks get the same typed text,
whatever their other chunks, availability and cursor kind. -/
theorem C19_typed_text_concatenation (result : CXCompletionResult) :
    (parseCandidate result).typed_text = result.CompletionString.chunks.typedText ∧
    ∀ other : CXCompletionResult,
      other.CompletionString.chunks.typedText = result.CompletionString.chunks.typedText →
      (parseCandidate other).typed_text = (parseCandidate result).typed_text := by
  refine ⟨parseCandidate_typed_text result, ?_⟩
  intro other ho
  rw [parseCandidate_typed_text other, parseCandidate_typed_text result, ho]

/-- C17 at a concrete candidate: a missing typed text counts as the empty
string; the signature is "x" and the typed text is empty. -/
theorem C17_missing_text_is_empty_witness :
    parseCandidate missingTypedText =
      parseCandidate (withChunks missingTypedText
        (.chunk CXCompletionChunk_TypedText (some "") .done
          (.chunk CXCompletionChunk_Text (some "x") .done .done))) ∧
    (parseCandidate missingTypedText).signature = "x" ∧
    (parseCandidate missingTypedText).typed_text = "" :=
  ⟨C17_missing_text_is_empty missingTypedText, by decide, by decide⟩

/-- C19 at concrete candidates: the typed text of `f(x[, y[, z]])` is "f", and
the typed text of the candidate with the typed-text chunks "a" and "b" is "ab". -/
theorem C19_typed_text_concatenation_witness :
    (parseCandidate nestedOptional).typed_text = "f" ∧
    (parseCandidate twoTypedTexts).typed_text = "ab" :=
  ⟨(C19_typed_text_concatenation nestedOptional).1.trans (by decide),
   (C19_typed_text_concatenation twoTypedTexts).1.trans (by decide)⟩

/-! ## C16: placeholders -/

/-- C16: a placeholder chunk, wherever it stands in the sequence, appends its
text and then the marker "{PH}" to the signature and leaves the typed text, the
return type and the counter as they are; and the candidate of `push_back` with
the placeholder text `p`, as a method or as a function, gives the one row with
the typed text "push_back" and the label "push_back(" then `p` then "{PH})"
then " -> void" (after the inaccessibility marker, when it is not accessible). -/
theorem C16_placeholder_marker :
    (∀ (q : CompletionStringParser) (text : Option String) (nested : Chunks),
      (do_parse q (.chunk CXCompletionChunk_Placeholder text nested .done)).r.signature =
        q.r.signature ++ CompletionStringParser.append "" text ++ "\x7bPH\x7d" ∧
      (do_parse q (.chunk CXCompletionChunk_Placeholder text nested .done)).r.typed_text =
        q.r.typed_text ∧
      (do_parse q (.chunk CXCompletionChunk_Placeholder text nested .done)).r.return_type =
        q.r.return_type ∧
      (do_parse q (.chunk CXCompletionChunk_Placeholder text nested .done)).enter_optional_count =
        q.enter_optional_count) ∧
    (∀ (q : CompletionStringParser) (pre post nested : Chunks) (text : Option String),
      do_parse q (pre.append (.chunk CXCompletionChunk_Placeholder text nested post)) =
        do_parse (do_parse (do_parse q pre)
          (.chunk CXCompletionChunk_Placeholder text nested .done)) post) ∧
    (∀ (p : String) (av : CXAvailabilityKind),
      rowLoop [pushBack CXCursor_CXXMethod av (some p)] [] =
        [{ type := COMPLETE_RESULT_METHOD, typedText := "push_back",
           label := (if av = CXAvailability_NotAccessible then "(NOTACCESS) " else "") ++
             ("push_back(" ++ p ++ "\x7bPH\x7d" ++ ")" ++ " -> void") }] ∧
      rowLoop [pushBack CXCursor_FunctionDecl av (some p)] [] =
        [{ type := COMPLETE_RESULT_FUNCTION, typedText := "push_back",
           label := (if av = CXAvailability_NotAccessible then "(NOTACCESS) " else "") ++
             ("push_back(" ++ p ++ "\x7bPH\x7d" ++ ")" ++ " -> void") }]) := by
  refine ⟨?_, ?_, ?_⟩
  · intro q text nested
    refine ⟨?_, rfl, rfl, rfl⟩
    simp only [do_parse, addSig]
    rw [append_eq]
  · intro q pre post nested text
    have h : Chunks.chunk CXCompletionChunk_Placeholder text nested post =
        (Chunks.chunk CXCompletionChunk_Placeholder text nested .done).append post := rfl
    rw [do_parse_append, h, do_parse_append]
  · intro p av
    have hrow : ∀ kind : CXCursorKind,
        (parseCandidate (pushBack kind av (some p))).typed_text = "push_back" ∧
        (parseCandidate (pushBack kind av (some p))).signature =
          (if av = CXAvailability_NotAccessible then "(NOTACCESS) " else "") ++
             ("push_back(" ++ p ++ "\x7bPH\x7d" ++ ")" ++ " -> void") := by
      intro kind
      constructor
      · rw [parseCandidate_typed_text]
        rfl
      · rw [parseCandidate_signature]
        cases av <;>
          simp [pushBack, afterWalk, beforeWalk, setAveailability, temporary, do_parse, addSig,
            append, ParseResult.fresh, String.append_assoc]
    constructor
    · simp [rowLoop, getCursorType, pushBack]
      exact hrow CXCursor_CXXMethod
    · simp [rowLoop, getCursorType, pushBack]
      exact hrow CXCursor_FunctionDecl

/-- C16 at a concrete candidate: the method `push_back` with the placeholder
text "const T &x" gives the label "push_back(const T &x{PH}) -> void". -/
theorem C16_placeholder_marker_witness :
    rowLoop [pushBack CXCursor_CXXMethod CXAvailability_Available (some "const T &x")] [] =
      [{ type := COMPLETE_RESULT_METHOD, typedText := "push_back",
         label := "push_back(const T &x\x7bPH\x7d) -> void" }] :=
  ((C16_placeholder_marker.2.2 "const T &x" CXAvailability_Available).1).trans (by decide)

/-! ## C11: requests that fail or find nothing -/

/-- C11, the code at the failing input: on an object whose index is null,
`complete` returns before it clears `result`, so the row that the caller passed
in is still there.  In general, with a null index `complete` changes nothing;
with an index, the rows are empty when no translation unit is obtained, when
the completion gives no result container, and when the container is empty. -/
theorem C11_null_index_keeps_rows :
    (complete noIndexClang (new noIndexClang) [rowOf voidFunction] "a.cpp" "int a;" 1 1 0).1
      = [rowOf voidFunction] ∧
    (∀ (clang : Clang) (s : Run) (result : CodeCompletionResults) (filename content : String)
        (line col flag : Int), s.impl.index = 0 →
      complete clang s result filename content line col flag = (result, s)) ∧
    (∀ (clang : Clang) (s : Run) (result : CodeCompletionResults) (filename content : String)
        (line col flag : Int), s.impl.index ≠ 0 →
      ((getTranslationUnit clang s filename content).1 = 0 ∨
        completionAnswer clang s filename content line col = none ∨
        ∃ results : CXCodeCompleteResults,
          completionAnswer clang s filename content line col = some results ∧
          results.NumResults = 0) →
      (complete clang s result filename content line col flag).1 = []) := by
  refine ⟨by decide, ?_, ?_⟩
  · intro clang s result filename content line col flag h
    simp only [complete, h, if_true]
  · intro clang s result filename content line col flag hindex h
    by_cases htu : (getTranslationUnit clang s filename content).1 = 0
    · rw [complete_of_no_tu clang s result filename content line col flag hindex htu]
    · rw [complete_of_tu clang s result filename content line col flag hindex htu]
      rcases h with h | h | ⟨results, h, h0⟩
      · exact absurd h htu
      · rw [h]
      · rw [h]; simp only [h0, if_true]

/-! ## C20: the result container -/

/-- C20, the code at the failing input: when the completion answers with a
result container that holds no candidate, the calls of the request are the
parse, the reparse and the completion, and the container is not disposed.  In
general, after the completion gave a container, `complete` sorts and disposes
it when it holds a candidate and makes no further call when it holds none. -/
theorem C20_empty_container_not_disposed :
    newCalls (new emptyClang).calls
        (complete emptyClang (new emptyClang) [] "a.cpp" "int a;" 1 1 0).2.calls =
      [ClangCall.parseTranslationUnit 1 "a.cpp" [] "int a;" 2,
       ClangCall.reparseTranslationUnit 2 "a.cpp" "int a;",
       ClangCall.codeCompleteAt 2 "a.cpp" 1 1 "int a;" (some { Results := [] })] ∧
    (∀ (clang : Clang) (s : Run) (result : CodeCompletionResults) (filename content : String)
        (line col flag : Int) (results : CXCodeCompleteResults),
      s.impl.index ≠ 0 → (getTranslationUnit clang s filename content).1 ≠ 0 →
      completionAnswer clang s filename content line col = some results →
      newCalls (getTranslationUnit clang s filename content).2.calls
          (complete clang s result filename content line col flag).2.calls =
        [ClangCall.reparseTranslationUnit (getTranslationUnit clang s filename content).1
            filename content,
         ClangCall.codeCompleteAt (getTranslationUnit clang s filename content).1
            filename line col content (some results)] ++
        (if results.NumResults = 0 then []
         else [ClangCall.sortCodeCompletionResults results.Results,
               ClangCall.disposeCodeCompleteResults results])) := by
  refine ⟨by decide, ?_⟩
  intro clang s result filename content line col flag results hindex htu hres
  rw [complete_of_tu clang s result filename content line col flag hindex htu, hres]
  by_cases h0 : results.NumResults = 0
  · simp [h0, newCalls]
  · simp [h0, newCalls]

/-! ## C18: the counter of optional groups -/

/-- C12: when every successful parse of libclang returns a handle it has not
returned before, then after any operations (`setOption`, `complete`,
`clearTranslationUnitCache`) on a new object no handle has been disposed more
than once and no handle that is in the cache has been disposed; and after the
destructor has run as well, still no handle has been disposed more than once,
every handle that a successful parse returned has been disposed exactly once,
and the cache is empty. -/
theorem C12_handles_disposed_once (clang : Clang) (hfresh : FreshHandles clang)
    (ops : List Op) :
    (∀ tu : CXTranslationUnit,
      (disposedHandles (runOps clang (new clang) ops).calls).count tu ≤ 1) ∧
    (∀ e ∈ (runOps clang (new clang) ops).impl.tuCache,
      e.2 ∉ disposedHandles (runOps clang (new clang) ops).calls) ∧
    (∀ tu : CXTranslationUnit,
      (disposedHandles (delete (runOps clang (new clang) ops)).calls).count tu ≤ 1) ∧
    (∀ tu ∈ parsedHandles (delete (runOps clang (new clang) ops)).calls,
      (disposedHandles (delete (runOps clang (new clang) ops)).calls).count tu = 1) ∧
    (delete (runOps clang (new clang) ops)).impl.tuCache = [] := by
  have hinv := accounted_runOps clang hfresh ops (new clang) (accounted_new clang)
  generalize runOps clang (new clang) ops = s at hinv
  have hclear := accounted_clear s hinv
  obtain ⟨_, hn, hp⟩ := hinv
  obtain ⟨_, hn2, hp2⟩ := hclear
  have hnd : (cacheHandles s.impl.tuCache ++ disposedHandles s.calls).Nodup :=
    hp.nodup_iff.mp hn
  have hdel_parsed : parsedHandles (delete s).calls =
      parsedHandles (clearTranslationUnitCache s).calls := by
    simp [delete, parsedHandles_append, parsedHandles]
  have hdel_disposed : disposedHandles (delete s).calls =
      disposedHandles (clearTranslationUnitCache s).calls := by
    simp [delete, disposedHandles_append, disposedHandles]
  have hp3 : (parsedHandles (clearTranslationUnitCache s).calls).Perm
      (disposedHandles (clearTranslationUnitCache s).calls) := by
    simpa [clearTranslationUnitCache, cacheHandles] using hp2
  have hnd2 : (disposedHandles (clearTranslationUnitCache s).calls).Nodup :=
    hp3.nodup_iff.mp hn2
  refine ⟨?_, ?_, ?_, ?_, rfl⟩
  · intro tu
    exact List.nodup_iff_count_le_one.mp (List.nodup_append.mp hnd).2.1 tu
  · intro e he hd
    exact (List.nodup_append.mp hnd).2.2
      (List.mem_map.mpr ⟨e, he, rfl⟩) hd
  · intro tu
    rw [hdel_disposed]
    exact List.nodup_iff_count_le_one.mp hnd2 tu
  · intro tu htu
    rw [hdel_parsed] at htu
    rw [hdel_disposed]
    exact List.count_eq_one_of_mem hnd2 (hp3.mem_iff.mp htu)

/-- C12 at a concrete run: with handles 1, 2 and 3 parsed in the course of
`sampleOps`, the destructor leaves each of them disposed exactly once. -/
theorem C12_handles_disposed_once_witness :
    parsedHandles (delete (runOps freshClang (new freshClang) sampleOps)).calls = [1, 2, 3] ∧
    disposedHandles (delete (runOps freshClang (new freshClang) sampleOps)).calls = [1, 2, 3] ∧
    (disposedHandles (delete (runOps freshClang (new freshClang) sampleOps)).calls).count 3
      = 1 :=
  ⟨by decide, by decide,
   (C12_handles_disposed_once freshClang freshClang_fresh sampleOps).2.2.2.1 3 (by decide)⟩

/-! ## C13: cached handles and the stored arguments -/

/-- C13: after any operations (`setOption`, `complete`,
`clearTranslationUnitCache`) on a new object, the stored arguments are those of
the last `setOption`; every file in the cache has its handle from a parse of
this file under these arguments; the handle that `getTranslationUnit`, and so
the next `complete`, works with (when it is not null) comes from a parse of the
file under these arguments; and when every successful parse returns a handle it
has not returned before, no parse under other arguments returned a handle that
is in the cache. -/
theorem C13_cache_parsed_under_stored_args (clang : Clang) (ops : List Op) :
    (runOps clang (new clang) ops).impl.commandLineArgs = lastArgs [] ops ∧
    (∀ (filename : String) (tu : CXTranslationUnit),
      (filename, tu) ∈ (runOps clang (new clang) ops).impl.tuCache →
      ∃ content : String,
        ClangCall.parseTranslationUnit (runOps clang (new clang) ops).impl.index filename
          (lastArgs [] ops) content tu ∈ (runOps clang (new clang) ops).calls) ∧
    (∀ filename content : String,
      (getTranslationUnit clang (runOps clang (new clang) ops) filename content).1 ≠ 0 →
      ∃ content2 : String,
        ClangCall.parseTranslationUnit (runOps clang (new clang) ops).impl.index filename
          (lastArgs [] ops) content2
          (getTranslationUnit clang (runOps clang (new clang) ops) filename content).1 ∈
        (getTranslationUnit clang (runOps clang (new clang) ops) filename content).2.calls) ∧
    (FreshHandles clang →
      ∀ (filename : String) (tu : CXTranslationUnit),
        (filename, tu) ∈ (runOps clang (new clang) ops).impl.tuCache →
      ∀ (index : CXIndex) (parsed : String) (argv : List String) (content : String),
        ClangCall.parseTranslationUnit index parsed argv content tu ∈
          (runOps clang (new clang) ops).calls →
        argv = lastArgs [] ops) := by
  obtain ⟨hinv, hargs, _⟩ := underArgs_runOps clang ops (new clang) (underArgs_new clang)
  have hargs2 : (runOps clang (new clang) ops).impl.commandLineArgs = lastArgs [] ops := hargs
  refine ⟨hargs2, ?_, ?_, ?_⟩
  · intro filename tu hmem
    rw [← hargs2]
    exact hinv filename tu hmem
  · intro filename content hne
    rw [← hargs2]
    exact (getTranslationUnit_frame clang _ filename content hinv).2.2.2.2 hne
  · intro hfresh filename tu hmem index parsed argv content hcall
    obtain ⟨h0, hn, _⟩ := accounted_runOps clang hfresh ops (new clang) (accounted_new clang)
    obtain ⟨c2, hc2⟩ := hinv filename tu hmem
    rw [← hargs2]
    exact parse_call_unique _ hn tu (h0 (filename, tu) hmem) _ _ _ _ _ _ _ _ hcall hc2

/-- C13 at a concrete run: after `sampleOps` the stored arguments are
`-std=c++11`, the cache holds `a.cpp` with the handle 3, and that handle was
parsed under `-std=c++11`. -/
theorem C13_cache_parsed_under_stored_args_witness :
    (runOps freshClang (new freshClang) sampleOps).impl.commandLineArgs = ["-std=c++11"] ∧
    (runOps freshClang (new freshClang) sampleOps).impl.tuCache = [("a.cpp", 3)] ∧
    ∀ (index : CXIndex) (parsed : String) (argv : List String) (content : String),
      ClangCall.parseTranslationUnit index parsed argv content 3 ∈
        (runOps freshClang (new freshClang) sampleOps).calls →
      argv = ["-std=c++11"] :=
  ⟨(C13_cache_parsed_under_stored_args freshClang sampleOps).1.trans (by decide),
   by decide,
   (C13_cache_parsed_under_stored_args freshClang sampleOps).2.2.2 freshClang_fresh
      "a.cpp" 3 (by decide)⟩

end cc
